import Mathlib

/-!
Verification of the MBR-Parser forensic disk-image inspector.

The Rust sources (src/bytestream.rs, src/mbr.rs, src/gpt.rs, src/mft.rs,
src/apm.rs, src/main.rs) are shallowly embedded below.  Machine integers are
modelled as Nat (or Int for signed values) with explicit reductions modulo
2^w where wrap-around behaviour of the source is observable.  A disk image is
a list of byte values; fallible operations return Option, where none stands
for a surfaced io error or a panic of the source.
-/

namespace MbrParser

/-- Little-endian interpretation of a list of bytes, least significant first. -/
def leNat : List Nat → Nat
  | [] => 0
  | b :: bs => b + 256 * leNat bs

/-- The `n` bytes of an image starting at absolute offset `p`. -/
def bytesAt (img : List Nat) (p n : Nat) : List Nat :=
  (img.drop p).take n

/-- Single byte of an image at absolute offset `p` (0 beyond the end;
    accesses are guarded by explicit length checks where the source can fail). -/
def byteAt (img : List Nat) (p : Nat) : Nat :=
  img.getD p 0

/-- Little-endian read of an `n`-byte unsigned integer at offset `p`. -/
def readLe (img : List Nat) (p n : Nat) : Nat :=
  leNat (bytesAt img p n)

/-- The eight little-endian bytes of a 64-bit value, as written by
    `write_uint::<LittleEndian>(v, 8)` in the source. -/
def u64LeBytes (v : Nat) : List Nat :=
  (List.range 8).map (fun k => v / 2 ^ (8 * k) % 256)

/-- Byte `k` (0 = least significant) of the little-endian encoding of `v`. -/
def leByte (v k : Nat) : Nat := v / 2 ^ (8 * k) % 256

/-! ## NtfsDatetime conversions (src/mft.rs, `NtfsDatetime`)

`NtfsDatetime::ole2` computes `timestamp as u64 * 10000000 + 116444736000000000`
in u64 arithmetic; `NtfsDatetime::read` recovers unix seconds as
`(ole2_timestamp - 116444736000000000) / 10000000`. -/

/-- Embedding of `NtfsDatetime::ole2` applied to `NtfsDatetime::from(t)`:
    for a unix timestamp `t` the chrono round trip through
    `DateTime::from(UNIX_EPOCH + t)` followed by `.timestamp()` is the
    identity, so the produced FILETIME is `t * 10^7 + epoch` in u64. -/
def unixToOle2 (t : Nat) : Nat :=
  (t * 10000000 + 116444736000000000) % 2 ^ 64

/-- Embedding of the unix-second recovery in `NtfsDatetime::read`
    (truncating u64 subtraction followed by integer division). -/
def ole2ToUnix (ft : Nat) : Nat :=
  (ft - 116444736000000000) / 10000000

/-! ## NTFS Partition Boot Record (src/mft.rs, `NtfsPartitionBootRecord`, `parse_pbr`) -/

/-- Two's-complement value of a byte read as `i8`. -/
def i8OfByte (b : Nat) : Int :=
  if b % 256 < 128 then (b % 256 : Int) else (b % 256 : Int) - 256

/-- The fields of `NtfsPartitionBootRecord` used by `parse_pbr`.  Field byte
    offsets follow the sequential reads of its `Readable` impl:
    jump 0..3, oem 3..11, bytes_per_sector 11..13, sectors_per_cluster 13,
    error/unused runs, sectors-in-volume 40..48, mft_lcn 48..56,
    backup_mft_lcn 56..64, mft_size (i8) 64. -/
structure NtfsPartitionBootRecord where
  oemId : List Nat
  bytesPerSector : Nat
  sectorsPerCluster : Nat
  numberOfSectorsInVolume : Nat
  mftLcn : Nat
  backupMftLcn : Nat
  mftSize : Int
  deriving Repr, DecidableEq

/-- Embedding of the `Readable` impl of `NtfsPartitionBootRecord`: 84 bytes
    are consumed from the start of the sector; a shorter stream is an io
    error. -/
def NtfsPartitionBootRecord.parse (sector : List Nat) : Option NtfsPartitionBootRecord :=
  if 84 ≤ sector.length then
    some
      { oemId := bytesAt sector 3 8
        bytesPerSector := readLe sector 11 2
        sectorsPerCluster := byteAt sector 13
        numberOfSectorsInVolume := readLe sector 40 8
        mftLcn := readLe sector 48 8
        backupMftLcn := readLe sector 56 8
        mftSize := i8OfByte (byteAt sector 64) }
  else none

/-- Embedding of the `mft_size` computation in `parse_pbr` (src/mft.rs
    lines 120-124): `2u32.pow(mft_size.abs())` on the negative branch and
    `mft_size as usize * 8 * SECTOR_SIZE` on the non-negative branch; the
    result is a u32, so it is reduced modulo 2^32 (release wrap-around
    semantics; all inputs of interest stay far below the modulus). -/
def mftRecordSize (mftSize : Int) : Nat :=
  if mftSize < 0 then 2 ^ mftSize.natAbs % 2 ^ 32
  else mftSize.toNat * 8 * 512 % 2 ^ 32

/-- The record-size formula as the specification states it:
    `mft_record_size = mft_size_code < 0 ? 2^abs(mft_size_code)
    : mft_size_code * sectors_per_cluster * 512`. -/
def specMftRecordSize (mftSize : Int) (sectorsPerCluster : Nat) : Nat :=
  if mftSize < 0 then 2 ^ mftSize.natAbs
  else mftSize.toNat * sectorsPerCluster * 512

/-- A concrete 84-byte NTFS PBR prefix whose OEM id is NTFS, with
    sectors_per_cluster = 1 (offset 13) and mft_size code = 1 (offset 64). -/
def c2sector : List Nat :=
  [0xEB, 0x52, 0x90,
   0x4E, 0x54, 0x46, 0x53, 0x20, 0x20, 0x20, 0x20,
   0x00, 0x02,
   0x01] ++ List.replicate 26 0 ++
  [0x00, 0x10, 0x00, 0x00, 0x00, 0x00, 0x00, 0x00] ++
  [0x04, 0x00, 0x00, 0x00, 0x00, 0x00, 0x00, 0x00] ++
  [0x08, 0x00, 0x00, 0x00, 0x00, 0x00, 0x00, 0x00] ++
  [0x01] ++ List.replicate 19 0

end MbrParser

namespace MbrParser

/-- `leNat` of `n` bytes below 256 is below `2 ^ (8 * n)`. -/
theorem leNat_lt (bs : List Nat) (h : ∀ b ∈ bs, b < 256) :
    leNat bs < 2 ^ (8 * bs.length) := by
  induction bs with
  | nil => simp [leNat]
  | cons b bs ih =>
    have hb : b < 256 := h b (List.mem_cons_self b bs)
    have hbs := ih (fun x hx => h x (List.mem_cons_of_mem b hx))
    simp only [leNat, List.length_cons]
    have : 8 * (bs.length + 1) = 8 * bs.length + 8 := by ring
    rw [this, pow_add]
    have h256 : (2 : Nat) ^ 8 = 256 := by norm_num
    calc b + 256 * leNat bs < 256 + 256 * leNat bs := by omega
    _ = 256 * (leNat bs + 1) := by ring
    _ ≤ 256 * 2 ^ (8 * bs.length) := by
        exact Nat.mul_le_mul_left 256 (by omega)
    _ = 2 ^ (8 * bs.length) * 2 ^ 8 := by rw [h256]; ring

/-- A defaulted in-bounds read is a member of the list. -/
theorem getD_mem_of_lt (d : List Nat) (i : Nat) (v : Nat) (h : i < d.length) :
    d.getD i v ∈ d := by
  rw [List.getD_eq_getElem d v h]
  exact List.getElem_mem h

/-- Reading `n` defaulted bytes from offset `p` matches the slice
    `bytesAt d p n` while the reads stay in bounds. -/
theorem map_getD_range_eq_bytesAt (d : List Nat) (p n : Nat) (h : p + n ≤ d.length) :
    (List.range n).map (fun i => d.getD (p + i) 0) = bytesAt d p n := by
  induction n with
  | zero => simp [bytesAt]
  | succ n ih =>
    rw [List.range_succ, List.map_append, ih (by omega)]
    unfold bytesAt
    rw [List.take_succ]
    simp only [List.map_cons, List.map_nil]
    congr 1
    have hpn : p + n < d.length := by omega
    rw [List.getElem?_drop, List.getElem?_eq_getElem (by omega : p + n < d.length)]
    simp [List.getD_eq_getElem?_getD, List.getElem?_eq_getElem hpn]

/-- Appending a byte at the top end of a little-endian list adds its value
    scaled by 256 to the power of the old length. -/
theorem leNat_append_singleton (l : List Nat) (x : Nat) :
    leNat (l ++ [x]) = leNat l + x * 256 ^ l.length := by
  induction l with
  | nil => simp [leNat]
  | cons b bs ih =>
    simp only [List.cons_append, leNat, List.length_cons, List.append_eq]
    rw [ih]
    ring

/-- Disjoint bit ranges: or-ing a shifted value onto a small accumulator is
    addition. -/
theorem lor_shiftLeft_eq_add (a b n : Nat) (ha : a < 2 ^ n) :
    a ||| b <<< n = a + b <<< n := by
  rw [Nat.shiftLeft_eq, Nat.lor_comm, Nat.mul_comm b (2 ^ n),
    ← Nat.mul_add_lt_is_or ha b, Nat.add_comm]

/-- The byte-or loops of `DataRun::read` assemble exactly the little-endian
    value of the touched bytes. -/
theorem orFold_eq_leNat (f : Nat → Nat) (hf : ∀ i, f i < 256) (n : Nat) :
    (List.range n).foldl (fun acc i => acc ||| f i <<< (i * 8)) 0 =
      leNat ((List.range n).map f) := by
  induction n with
  | zero => simp [leNat]
  | succ n ih =>
    rw [List.range_succ, List.foldl_append, List.map_append]
    simp only [List.foldl_cons, List.foldl_nil, List.map_cons, List.map_nil, ih]
    rw [leNat_append_singleton]
    have hlen : ((List.range n).map f).length = n := by simp
    have hlt : leNat ((List.range n).map f) < 2 ^ (8 * n) := by
      have := leNat_lt ((List.range n).map f) (by
        intro b hb
        obtain ⟨i, _, rfl⟩ := List.mem_map.mp hb
        exact hf i)
      rwa [hlen] at this
    rw [lor_shiftLeft_eq_add _ _ (n * 8) (by rwa [Nat.mul_comm n 8]),
      Nat.shiftLeft_eq, hlen]
    have h256 : (256 : Nat) ^ n = 2 ^ (n * 8) := by
      rw [show (256 : Nat) = 2 ^ 8 by norm_num, ← pow_mul, Nat.mul_comm]
    rw [h256]

/-- C4 — For every unix timestamp `t ≥ 0` whose FILETIME encoding fits in a
    u64, converting `t` to an OLE2/FILETIME value
    (`t * 10_000_000 + 116_444_736_000_000_000`) and converting that value
    back via `(ft - 116_444_736_000_000_000) / 10_000_000` yields `t` again. -/
theorem ole2_roundtrip (t : Nat)
    (h : t * 10000000 + 116444736000000000 < 2 ^ 64) :
    ole2ToUnix (unixToOle2 t) = t := by
  unfold unixToOle2 ole2ToUnix
  rw [Nat.mod_eq_of_lt h, Nat.add_sub_cancel, Nat.mul_div_cancel]
  omega

/-- C4 witness — the round trip evaluated at the spec's sample timestamp
    1_691_641_200. -/
theorem ole2_roundtrip_witness :
    1691641200 * 10000000 + 116444736000000000 < 2 ^ 64 ∧
      ole2ToUnix (unixToOle2 1691641200) = 1691641200 :=
  ⟨by norm_num, ole2_roundtrip 1691641200 (by norm_num)⟩

/-- C2 counterexample — a parsed NTFS PBR with `sectors_per_cluster = 1` and
    `mft_size_code = 1`: the size computed by `parse_pbr` is
    `1 * 8 * 512 = 4096`, not the `1 * 1 * 512 = 512` the claim's formula
    gives, because the source multiplies by the constant 8 rather than by
    `sectors_per_cluster`. -/
theorem mftRecordSize_counterexample :
    ∃ pbr, NtfsPartitionBootRecord.parse c2sector = some pbr ∧
      pbr.sectorsPerCluster = 1 ∧ pbr.mftSize = 1 ∧
      mftRecordSize pbr.mftSize = 4096 ∧
      specMftRecordSize pbr.mftSize pbr.sectorsPerCluster = 512 ∧
      mftRecordSize pbr.mftSize ≠ specMftRecordSize pbr.mftSize pbr.sectorsPerCluster := by
  refine ⟨_, rfl, ?_, ?_, ?_, ?_, ?_⟩ <;> decide

/-- C2 amended — for every parsed NTFS PBR, the record size computed by
    `parse_pbr` equals `2 ^ abs(mft_size_code)` when the code is negative and
    `mft_size_code * 8 * 512` when it is non-negative, i.e. the spec formula
    with `sectors_per_cluster` replaced by the hard-coded constant 8
    (bounds keep the u32 computation below the wrap-around). -/
theorem mftRecordSize_eq_spec_with_eight (sector : List Nat)
    (pbr : NtfsPartitionBootRecord)
    (hp : NtfsPartitionBootRecord.parse sector = some pbr)
    (hneg : pbr.mftSize < 0 → pbr.mftSize.natAbs < 32)
    (hpos : 0 ≤ pbr.mftSize → pbr.mftSize.toNat * 8 * 512 < 2 ^ 32) :
    mftRecordSize pbr.mftSize = specMftRecordSize pbr.mftSize 8 := by
  unfold mftRecordSize specMftRecordSize
  by_cases hlt : pbr.mftSize < 0
  · simp only [hlt, if_true]
    have : (2 : Nat) ^ pbr.mftSize.natAbs < 2 ^ 32 :=
      Nat.pow_lt_pow_right (by norm_num) (hneg hlt)
    exact Nat.mod_eq_of_lt this
  · simp only [hlt, if_false]
    exact Nat.mod_eq_of_lt (hpos (by omega))

/-- C2 witness — the amended formula evaluated on the concrete PBR above. -/
theorem mftRecordSize_eq_spec_with_eight_witness :
    ∃ pbr, NtfsPartitionBootRecord.parse c2sector = some pbr ∧
      mftRecordSize pbr.mftSize = specMftRecordSize pbr.mftSize 8 :=
  ⟨_, rfl, mftRecordSize_eq_spec_with_eight c2sector _ rfl
    (by decide) (by decide)⟩

end MbrParser

namespace MbrParser

/-! ## Data runs (src/mft.rs, `DataRun::read`, lines 567-596)

The source reads an 8-byte array, splits the leading byte into nibbles,
or-assembles `low_nibble` length bytes and `high_nibble` offset bytes, and
then tests `offset & (1 << (high_nibble * 8 - 1)) > 0` before or-ing `0xFF`
into the low `high_nibble` bytes of the offset. -/

namespace DataRun

/-- High nibble of the leading byte: `(datarun[0] & 0b11110000) >> 4`. -/
def highNibble (d : List Nat) : Nat := (d.headD 0 &&& 0xF0) >>> 4

/-- Low nibble of the leading byte: `datarun[0] & 0b00001111`. -/
def lowNibble (d : List Nat) : Nat := d.headD 0 &&& 0x0F

/-- The length loop: `for i in 0..low_nibble : length |= d[1+i] << (i*8)`. -/
def lengthVal (d : List Nat) : Nat :=
  (List.range (lowNibble d)).foldl (fun acc i => acc ||| d.getD (1 + i) 0 <<< (i * 8)) 0

/-- The offset loop before sign handling:
    `for i in 0..high_nibble : offset |= d[1+low_nibble+i] << (i*8)`. -/
def offsetRaw (d : List Nat) : Nat :=
  (List.range (highNibble d)).foldl
    (fun acc i => acc ||| d.getD (1 + lowNibble d + i) 0 <<< (i * 8)) 0

/-- The test `offset & (1 << (high_nibble * 8 - 1)) > 0`.  For a zero high
    nibble the u8 expression `high_nibble * 8 - 1` wraps to 255 and the i64
    shift amount is masked to 63 (release semantics), so the mask is the i64
    sign bit; `offsetRaw` is below `2 ^ 56`, hence the test is false, which
    the first branch encodes.  Under checked (debug) arithmetic this very
    expression panics; see `readChecked`. -/
def signTest (d : List Nat) : Bool :=
  if highNibble d = 0 then false
  else decide (0 < offsetRaw d &&& 1 <<< (8 * highNibble d - 1))

/-- The decoded offset: if the sign test fires, the source ors `0xFF` into
    each of the low `high_nibble` bytes (leaving all higher bytes zero — it
    does not extend the sign into the upper bytes), otherwise the raw value.
    The result never becomes negative as an i64, so Nat suffices; it is cast
    to Int at the use site. -/
def offsetVal (d : List Nat) : Nat :=
  if signTest d then
    (List.range (highNibble d)).foldl (fun acc i => acc ||| 0xFF <<< (i * 8)) (offsetRaw d)
  else offsetRaw d

/-- Result type of `DataRun::read`: `length: u64`, `offset: i64`. -/
structure Val where
  length : Nat
  offset : Int
  deriving Repr, DecidableEq

/-- Embedding of `DataRun::read` under release semantics.  The two loops
    index `datarun[1+i]` and `datarun[1+low_nibble+i]`; indexing out of the
    8-byte array panics in every build profile, modelled by `none` via the
    bound `low_nibble + high_nibble ≤ 7`. -/
def readRelease (d : List Nat) : Option Val :=
  if d.length = 8 ∧ lowNibble d + highNibble d ≤ 7 then
    some { length := lengthVal d, offset := (offsetVal d : Int) }
  else none

/-- Embedding of `DataRun::read` under checked (debug) arithmetic: for a
    zero high nibble the expression `high_nibble * 8 - 1` underflows u8 and
    the program panics before producing a value. -/
def readChecked (d : List Nat) : Option Val :=
  if highNibble d = 0 then none else readRelease d

end DataRun

/-- The little-endian reading of the length loop, for bytes below 256. -/
theorem lengthVal_eq_readLe (d : List Nat) (hb : ∀ b ∈ d, b < 256)
    (hlen : 1 + DataRun.lowNibble d ≤ d.length) :
    DataRun.lengthVal d = readLe d 1 (DataRun.lowNibble d) := by
  unfold DataRun.lengthVal readLe
  have hf : ∀ i, d.getD (1 + i) 0 < 256 := by
    intro i
    rcases Nat.lt_or_ge (1 + i) d.length with h | h
    · exact hb _ (getD_mem_of_lt d (1 + i) 0 h)
    · rw [List.getD_eq_default _ _ h]; norm_num
  rw [orFold_eq_leNat _ hf]
  congr 1
  exact map_getD_range_eq_bytesAt d 1 (DataRun.lowNibble d) hlen

/-- Same fact for the offset loop. -/
theorem offsetRaw_eq_readLe (d : List Nat) (hb : ∀ b ∈ d, b < 256)
    (hlen : 1 + DataRun.lowNibble d + DataRun.highNibble d ≤ d.length) :
    DataRun.offsetRaw d = readLe d (1 + DataRun.lowNibble d) (DataRun.highNibble d) := by
  unfold DataRun.offsetRaw readLe
  have hf : ∀ i, d.getD (1 + DataRun.lowNibble d + i) 0 < 256 := by
    intro i
    rcases Nat.lt_or_ge (1 + DataRun.lowNibble d + i) d.length with h | h
    · exact hb _ (getD_mem_of_lt d _ 0 h)
    · rw [List.getD_eq_default _ _ h]; norm_num
  rw [orFold_eq_leNat _ hf]
  congr 1
  exact map_getD_range_eq_bytesAt d (1 + DataRun.lowNibble d) (DataRun.highNibble d) hlen

/-- C3 counterexample — on the spec's sample run list
    `0x31 0x40 0x55 0x4F 0x01 …` the decoder returns offset
    `0x01_4F_55 = 85_845`, not the `86_357` the claim states. -/
theorem dataRun_sample_counterexample :
    DataRun.readRelease [0x31, 0x40, 0x55, 0x4F, 0x01, 0x00, 0x00, 0x00] =
      some { length := 64, offset := 85845 } ∧
    DataRun.readRelease [0x31, 0x40, 0x55, 0x4F, 0x01, 0x00, 0x00, 0x00] ≠
      some { length := 64, offset := 86357 } := by
  constructor <;> decide

/-- C3 amended — the decoder splits the leading byte into nibbles, decodes
    the next `low_nibble` bytes as a little-endian unsigned length and — when
    the sign test does not fire — the following `high_nibble` bytes as a
    little-endian non-negative offset; on the sample input it returns
    length = 64 and offset = 85_845 (the little-endian value `0x01_4F_55`). -/
theorem dataRun_decode_amended :
    DataRun.readRelease [0x31, 0x40, 0x55, 0x4F, 0x01, 0x00, 0x00, 0x00] =
      some { length := 64, offset := 85845 } ∧
    ∀ d : List Nat, d.length = 8 → (∀ b ∈ d, b < 256) →
      DataRun.lowNibble d + DataRun.highNibble d ≤ 7 →
      ∃ v, DataRun.readRelease d = some v ∧
        v.length = readLe d 1 (DataRun.lowNibble d) ∧
        (DataRun.signTest d = false →
          v.offset = (readLe d (1 + DataRun.lowNibble d) (DataRun.highNibble d) : Int)) := by
  refine ⟨by decide, ?_⟩
  intro d hlen hb hbound
  refine ⟨{ length := DataRun.lengthVal d, offset := (DataRun.offsetVal d : Int) }, ?_, ?_, ?_⟩
  · unfold DataRun.readRelease
    rw [if_pos ⟨hlen, hbound⟩]
  · exact lengthVal_eq_readLe d hb (by omega)
  · intro hsign
    show (DataRun.offsetVal d : Int) = _
    unfold DataRun.offsetVal
    rw [hsign, if_neg (by simp)]
    exact_mod_cast offsetRaw_eq_readLe d hb (by omega)

/-- C3 amended witness — the general clause instantiated on the sample. -/
theorem dataRun_decode_amended_witness :
    ∃ v, DataRun.readRelease [0x31, 0x40, 0x55, 0x4F, 0x01, 0x00, 0x00, 0x00] = some v ∧
      v.length = readLe [0x31, 0x40, 0x55, 0x4F, 0x01, 0x00, 0x00, 0x00] 1
        (DataRun.lowNibble [0x31, 0x40, 0x55, 0x4F, 0x01, 0x00, 0x00, 0x00]) ∧
      (DataRun.signTest [0x31, 0x40, 0x55, 0x4F, 0x01, 0x00, 0x00, 0x00] = false →
        v.offset = (readLe [0x31, 0x40, 0x55, 0x4F, 0x01, 0x00, 0x00, 0x00]
          (1 + DataRun.lowNibble [0x31, 0x40, 0x55, 0x4F, 0x01, 0x00, 0x00, 0x00])
          (DataRun.highNibble [0x31, 0x40, 0x55, 0x4F, 0x01, 0x00, 0x00, 0x00]) : Int)) :=
  dataRun_decode_amended.2 [0x31, 0x40, 0x55, 0x4F, 0x01, 0x00, 0x00, 0x00]
    (by decide) (by decide) (by decide)

/-- C10 counterexample — `DataRun::read` is not total: under checked (debug)
    arithmetic a zero high nibble panics in the sign-test expression
    `high_nibble * 8 - 1` (u8 underflow), and a leading byte `0x0F`
    (low nibble 15) indexes out of the 8-byte array in every profile. -/
theorem dataRun_totality_counterexample :
    DataRun.readChecked [0x01, 0x40, 0x00, 0x00, 0x00, 0x00, 0x00, 0x00] = none ∧
    DataRun.readRelease [0x0F, 0x01, 0x01, 0x01, 0x01, 0x01, 0x01, 0x01] = none := by
  constructor <;> decide

/-- C10 amended — under release (wrapped-shift) semantics, every 8-byte
    input with a zero high nibble and a low nibble at most 7 decodes
    successfully with offset 0: the masked shift turns the sign test into a
    test of the i64 sign bit, which is clear. -/
theorem dataRun_zero_high_nibble_release (d : List Nat) (hlen : d.length = 8)
    (hhigh : DataRun.highNibble d = 0) (hlow : DataRun.lowNibble d ≤ 7) :
    DataRun.readRelease d = some { length := DataRun.lengthVal d, offset := 0 } := by
  unfold DataRun.readRelease
  rw [if_pos ⟨hlen, by omega⟩]
  have hraw : DataRun.offsetRaw d = 0 := by
    unfold DataRun.offsetRaw
    rw [hhigh]
    rfl
  have hsign : DataRun.signTest d = false := by
    unfold DataRun.signTest
    rw [if_pos hhigh]
  have : DataRun.offsetVal d = 0 := by
    unfold DataRun.offsetVal
    rw [hsign, if_neg (by simp), hraw]
  rw [this]
  rfl

/-- C10 amended witness — the sparse-run input `0x01 0x40 …` decodes to
    length 64, offset 0 under release semantics. -/
theorem dataRun_zero_high_nibble_release_witness :
    DataRun.readRelease [0x01, 0x40, 0x00, 0x00, 0x00, 0x00, 0x00, 0x00] =
      some { length := DataRun.lengthVal [0x01, 0x40, 0x00, 0x00, 0x00, 0x00, 0x00, 0x00],
             offset := 0 } :=
  dataRun_zero_high_nibble_release [0x01, 0x40, 0x00, 0x00, 0x00, 0x00, 0x00, 0x00]
    (by decide) (by decide) (by decide)

end MbrParser

namespace MbrParser

/-! ## ByteStream (src/bytestream.rs)

A `ByteStream` owns a `BufReader<File>` (its logical position is
`readerPos`) and a `Cursor<Vec<u8>>` over the buffered window (`window`,
with in-window position `cursorPos`).  `read_raw_bytes_from_file` saves the
reader position, seeks to the requested offset, reads, and seeks back; on a
short read the error propagates before the restoring seek runs. -/

structure ByteStreamState where
  readerPos : Nat
  window : List Nat
  cursorPos : Nat
  deriving Repr, DecidableEq

/-- Embedding of `ByteStream::new(path, size, offset)`: seek to sector
    `offset`, buffer `size` bytes; a short read is an io error.  The reader's
    logical position afterwards sits at the end of the window. -/
def ByteStream.construct (file : List Nat) (size offset : Nat) : Option ByteStreamState :=
  if offset * 512 + size ≤ file.length then
    some { readerPos := offset * 512 + size
           window := bytesAt file (offset * 512) size
           cursorPos := 0 }
  else none

/-- Embedding of `read_raw_bytes_from_file(from, amount)`: the reader
    position is saved, moved to `frm`, and restored after a successful
    `read_exact`; when the read fails the error returns before the restoring
    seek, leaving the reader at the requested offset.  The cursor and the
    window are never touched. -/
def readRawBytesFromFile (file : List Nat) (s : ByteStreamState) (frm amt : Nat) :
    Option (List Nat) × ByteStreamState :=
  let current := s.readerPos
  if frm + amt ≤ file.length then
    (some (bytesAt file frm amt), { s with readerPos := current })
  else
    (none, { s with readerPos := frm })

/-- Embedding of `read_raw_sectors_from_file(from, count)`: delegates with
    sector-scaled arguments. -/
def readRawSectorsFromFile (file : List Nat) (s : ByteStreamState) (frm amt : Nat) :
    Option (List Nat) × ByteStreamState :=
  readRawBytesFromFile file s (frm * 512) (amt * 512)

/-- C8 — every call to `read_raw_sectors_from_file` or
    `read_raw_bytes_from_file` leaves the stream's in-window cursor position
    and the contents of its buffered window unchanged, regardless of the
    requested range (also on the error path, where only the reader position
    is left unrestored). -/
theorem readRawFromFile_cursor_neutral (file : List Nat) (s : ByteStreamState)
    (frm amt : Nat) :
    ((readRawBytesFromFile file s frm amt).2.cursorPos = s.cursorPos ∧
      (readRawBytesFromFile file s frm amt).2.window = s.window) ∧
    ((readRawSectorsFromFile file s frm amt).2.cursorPos = s.cursorPos ∧
      (readRawSectorsFromFile file s frm amt).2.window = s.window) := by
  unfold readRawSectorsFromFile readRawBytesFromFile
  refine ⟨⟨?_, ?_⟩, ⟨?_, ?_⟩⟩ <;> (dsimp only; split <;> rfl)

/-- C8 witness — a concrete stream observing cursor and window neutrality
    across an in-range and an out-of-range raw read. -/
theorem readRawFromFile_cursor_neutral_witness :
    ((readRawBytesFromFile [1, 2, 3, 4] { readerPos := 4, window := [1, 2], cursorPos := 1 }
        1 2).2.cursorPos = 1 ∧
      (readRawBytesFromFile [1, 2, 3, 4] { readerPos := 4, window := [1, 2], cursorPos := 1 }
        1 2).2.window = [1, 2]) ∧
    ((readRawSectorsFromFile [1, 2, 3, 4] { readerPos := 4, window := [1, 2], cursorPos := 1 }
        1 2).2.cursorPos = 1 ∧
      (readRawSectorsFromFile [1, 2, 3, 4] { readerPos := 4, window := [1, 2], cursorPos := 1 }
        1 2).2.window = [1, 2]) :=
  readRawFromFile_cursor_neutral [1, 2, 3, 4]
    { readerPos := 4, window := [1, 2], cursorPos := 1 } 1 2

end MbrParser

namespace MbrParser

/-! ## MBR decoder (src/mbr.rs, `parse_sector`, `parse_mbr`)

`parse_sector(node, path, is_first, image_offset_sector, first_ebr_lba)`
reads up to four 16-byte entries at `image_offset_sector * 512 + 446`,
stopping at a zeroed entry or at an invalid bootable byte, and recurses on
extended partitions (types 0x05/0x0F) with the EBR chaining rule.  The disk
is modelled as a total byte function; surfaced io errors (reads past the end
of the image abort the whole traversal in the source) are out of scope of
the traversal-logic claims. -/

def Disk : Type := Nat → Nat

/-- A byte of the disk (reads in the source always produce `u8` values). -/
def diskByte (disk : Disk) (p : Nat) : Nat := disk p % 256

/-- Embedding of `MbrPartitionTableEntry`. -/
structure MbrPartitionTableEntry where
  bootable : Nat
  startingChs : List Nat
  partitionType : Nat
  endingChs : List Nat
  lbaStart : Nat
  numSectors : Nat
  deriving Repr, DecidableEq

/-- Sequential 16-byte decode of a partition-table entry at `base`. -/
def readEntry (disk : Disk) (base : Nat) : MbrPartitionTableEntry :=
  { bootable := diskByte disk base
    startingChs := [diskByte disk (base + 1), diskByte disk (base + 2), diskByte disk (base + 3)]
    partitionType := diskByte disk (base + 4)
    endingChs := [diskByte disk (base + 5), diskByte disk (base + 6), diskByte disk (base + 7)]
    lbaStart := leNat [diskByte disk (base + 8), diskByte disk (base + 9),
      diskByte disk (base + 10), diskByte disk (base + 11)]
    numSectors := leNat [diskByte disk (base + 12), diskByte disk (base + 13),
      diskByte disk (base + 14), diskByte disk (base + 15)] }

/-- Embedding of `MbrPartitionTableEntry::is_empty`. -/
def MbrPartitionTableEntry.isEmpty (e : MbrPartitionTableEntry) : Bool :=
  e.bootable == 0 && e.startingChs.all (· == 0) && e.partitionType == 0 &&
    e.endingChs.all (· == 0) && e.lbaStart == 0 && e.numSectors == 0

/-- Embedding of `MbrPartitionTableEntry::is_extended_partition`. -/
def MbrPartitionTableEntry.isExtendedPartition (e : MbrPartitionTableEntry) : Bool :=
  e.partitionType == 0x05 || e.partitionType == 0x0F

/-- The bootable rejection test of `parse_sector`:
    `bootable != 0x00 && bootable != 0x80 && (0x01..0x7F).contains(&bootable)`.
    The Rust range `0x01..0x7F` excludes its upper end. -/
def invalidBootable (e : MbrPartitionTableEntry) : Bool :=
  e.bootable != 0x00 && e.bootable != 0x80 &&
    (0x01 ≤ e.bootable && e.bootable < 0x7F)

/-- An entry the loop neither stops at nor rejects. -/
def entryAccepted (e : MbrPartitionTableEntry) : Bool :=
  !e.isEmpty && !invalidBootable e

/-- Embedding of `MbrPartitionTableEntryNode`: entry, optional child vector
    (`None` until `add_child` is first called) and the image offset in
    sectors. -/
inductive MbrNode where
  | mk (entry : Option MbrPartitionTableEntry) (children : Option (List MbrNode))
      (imageOffsetSectors : Nat)

/-- Entry carried by a node. -/
def MbrNode.entry : MbrNode → Option MbrPartitionTableEntry
  | .mk e _ _ => e

/-- Children carried by a node. -/
def MbrNode.children : MbrNode → Option (List MbrNode)
  | .mk _ c _ => c

/-- The `children` field a sequence of `add_child` calls produces: `None`
    when nothing was added, `Some` of the list otherwise. -/
def childrenOfList (l : List MbrNode) : Option (List MbrNode) :=
  if l.isEmpty then none else some l

/-- The child node `parse_sector` builds for the accepted entry at index
    `i`: extended entries (0x05/0x0F) carry the children of a nested
    `parse_sector` call at the EBR-chaining target; data entries carry no
    children.  `recurse off' firstEbr'` stands for the nested call. -/
def childFor (disk : Disk) (isFirst : Bool) (off firstEbr : Nat)
    (recurse : Nat → Nat → List MbrNode) (i : Nat) : MbrNode :=
  if (readEntry disk (off * 512 + 446 + 16 * i)).isExtendedPartition then
    MbrNode.mk (some (readEntry disk (off * 512 + 446 + 16 * i)))
      (if isFirst then
        childrenOfList (recurse (readEntry disk (off * 512 + 446 + 16 * i)).lbaStart
          (readEntry disk (off * 512 + 446 + 16 * i)).lbaStart)
       else
        childrenOfList (recurse (firstEbr + (readEntry disk (off * 512 + 446 + 16 * i)).lbaStart)
          firstEbr)) off
  else MbrNode.mk (some (readEntry disk (off * 512 + 446 + 16 * i))) none off

/-- The entry loop of `parse_sector`: examine the entry at index `i`
    (at byte `off * 512 + 446 + 16 * i`), stopping at a zeroed entry, at an
    invalid bootable byte, or after `r` remaining iterations (`r` starts at
    4). -/
def entryLoop (disk : Disk) (isFirst : Bool) (off firstEbr : Nat)
    (recurse : Nat → Nat → List MbrNode) : Nat → Nat → List MbrNode
  | _, 0 => []
  | i, r + 1 =>
    if (readEntry disk (off * 512 + 446 + 16 * i)).isEmpty then []
    else if invalidBootable (readEntry disk (off * 512 + 446 + 16 * i)) then []
    else
      childFor disk isFirst off firstEbr recurse i ::
        entryLoop disk isFirst off firstEbr recurse (i + 1) r

/-- Embedding of `parse_sector`, returning the children added to the node
    passed in.  `fuel` bounds the EBR recursion depth (the source recurses
    unboundedly and would overflow the stack on a cyclic chain); at
    exhausted fuel an extended entry keeps an empty subtree. -/
def parseSectorChildren (disk : Disk) : Nat → Bool → Nat → Nat → List MbrNode
  | 0, isFirst, off, firstEbr =>
    entryLoop disk isFirst off firstEbr (fun _ _ => []) 0 4
  | fuel + 1, isFirst, off, firstEbr =>
    entryLoop disk isFirst off firstEbr (parseSectorChildren disk fuel false) 0 4

/-- Embedding of `parse_mbr`: a default root node filled by
    `parse_sector(root, path, true, 0, 0)`. -/
def parseMbr (disk : Disk) (fuel : Nat) : MbrNode :=
  MbrNode.mk none (childrenOfList (parseSectorChildren disk fuel true 0 0)) 0

/-- Sector-0 bytes of the C5 counterexample disk: entry 0 bootable 0x80,
    entry 1 bootable 0x7F, entry 2 inactive, entry 3 zeroed; all three
    populated entries are plain data partitions (type 0x07). -/
def c5bytes : List Nat :=
  List.replicate 446 0 ++
  [0x80, 0, 0, 0, 0x07, 0, 0, 0, 100, 0, 0, 0, 10, 0, 0, 0] ++
  [0x7F, 0, 0, 0, 0x07, 0, 0, 0, 200, 0, 0, 0, 10, 0, 0, 0] ++
  [0x00, 0, 0, 0, 0x07, 0, 0, 0, 0x2C, 1, 0, 0, 10, 0, 0, 0]

/-- The C5 counterexample disk (zero beyond the listed bytes). -/
def c5disk : Disk := fun p => c5bytes.getD p 0

/-- Sector-0 bytes of the C5 witness disk: entry 0 accepted, entry 1 has the
    invalid bootable byte 0x01. -/
def c5bytes2 : List Nat :=
  List.replicate 446 0 ++
  [0x80, 0, 0, 0, 0x07, 0, 0, 0, 100, 0, 0, 0, 10, 0, 0, 0] ++
  [0x01, 0, 0, 0, 0x07, 0, 0, 0, 200, 0, 0, 0, 10, 0, 0, 0]

/-- The C5 witness disk. -/
def c5disk2 : Disk := fun p => c5bytes2.getD p 0

/-- The C6 witness disk: the primary MBR holds one extended entry
    (type 0x05, start LBA 10); the EBR at LBA 10 holds a data entry and a
    further extended entry (type 0x05, start 5). -/
def c6disk : Disk := fun p =>
  if p < 512 then
    (List.replicate 446 0 ++
      [0x00, 0, 0, 0, 0x05, 0, 0, 0, 10, 0, 0, 0, 50, 0, 0, 0]).getD p 0
  else if 5120 ≤ p ∧ p < 5632 then
    (List.replicate 446 0 ++
      [0x00, 0, 0, 0, 0x07, 0, 0, 0, 1, 0, 0, 0, 4, 0, 0, 0] ++
      [0x00, 0, 0, 0, 0x05, 0, 0, 0, 5, 0, 0, 0, 40, 0, 0, 0]).getD (p - 5120) 0
  else 0

/-- One accepted entry prepends its child and the loop continues. -/
theorem entryLoop_cons (disk : Disk) (isFirst : Bool) (off firstEbr : Nat)
    (recurse : Nat → Nat → List MbrNode) (i r : Nat)
    (hacc : entryAccepted (readEntry disk (off * 512 + 446 + 16 * i)) = true) :
    entryLoop disk isFirst off firstEbr recurse i (r + 1) =
      childFor disk isFirst off firstEbr recurse i ::
        entryLoop disk isFirst off firstEbr recurse (i + 1) r := by
  have h1 : (readEntry disk (off * 512 + 446 + 16 * i)).isEmpty = false := by
    unfold entryAccepted at hacc
    cases h : (readEntry disk (off * 512 + 446 + 16 * i)).isEmpty <;>
      simp [h] at hacc ⊢
  have h2 : invalidBootable (readEntry disk (off * 512 + 446 + 16 * i)) = false := by
    unfold entryAccepted at hacc
    cases h : invalidBootable (readEntry disk (off * 512 + 446 + 16 * i)) <;>
      simp [h] at hacc ⊢
  conv_lhs => unfold entryLoop
  rw [if_neg (by simp [h1]), if_neg (by simp [h2])]

/-- A non-empty entry with an invalid bootable byte ends the loop with no
    further children. -/
theorem entryLoop_stop (disk : Disk) (isFirst : Bool) (off firstEbr : Nat)
    (recurse : Nat → Nat → List MbrNode) (i r : Nat)
    (hinv : invalidBootable (readEntry disk (off * 512 + 446 + 16 * i)) = true) :
    entryLoop disk isFirst off firstEbr recurse i (r + 1) = [] := by
  unfold entryLoop
  by_cases h : (readEntry disk (off * 512 + 446 + 16 * i)).isEmpty = true
  · rw [if_pos h]
  · rw [if_neg h, if_pos hinv]

/-- Running the loop across a block of accepted entries produces exactly
    their children, followed by whatever the loop does from the far end. -/
theorem entryLoop_keepsAcc (disk : Disk) (isFirst : Bool) (off firstEbr : Nat)
    (recurse : Nat → Nat → List MbrNode) (n : Nat) :
    ∀ i r, n ≤ r →
      (∀ k, i ≤ k → k < i + n →
        entryAccepted (readEntry disk (off * 512 + 446 + 16 * k)) = true) →
      entryLoop disk isFirst off firstEbr recurse i r =
        (List.range' i n).map (childFor disk isFirst off firstEbr recurse) ++
          entryLoop disk isFirst off firstEbr recurse (i + n) (r - n) := by
  induction n with
  | zero => intro i r _ _; simp
  | succ n ih =>
    intro i r hr hacc
    obtain ⟨r', rfl⟩ : ∃ r', r = r' + 1 := ⟨r - 1, by omega⟩
    rw [entryLoop_cons disk isFirst off firstEbr recurse i r'
      (hacc i le_rfl (by omega))]
    rw [ih (i + 1) r' (by omega) (fun k hk1 hk2 => hacc k (by omega) (by omega))]
    rw [List.range'_succ, List.map_cons]
    simp only [List.cons_append]
    have e1 : i + 1 + n = i + (n + 1) := by omega
    have e2 : r' - n = r' + 1 - (n + 1) := by omega
    rw [e1, e2]

/-- Packaging of `entryLoop_keepsAcc` for the full sector parse. -/
theorem parseSectorChildren_eq (disk : Disk) (fuel : Nat) (isFirst : Bool)
    (off firstEbr : Nat) (n : Nat) (hn : n ≤ 4)
    (hacc : ∀ k < n, entryAccepted (readEntry disk (off * 512 + 446 + 16 * k)) = true) :
    parseSectorChildren disk (fuel + 1) isFirst off firstEbr =
      (List.range' 0 n).map
        (childFor disk isFirst off firstEbr (parseSectorChildren disk fuel false)) ++
        entryLoop disk isFirst off firstEbr (parseSectorChildren disk fuel false) n (4 - n) := by
  show entryLoop disk isFirst off firstEbr (parseSectorChildren disk fuel false) 0 4 = _
  rw [entryLoop_keepsAcc disk isFirst off firstEbr _ n 0 4 hn
    (fun k hk1 hk2 => hacc k (by omega))]
  simp

set_option maxRecDepth 10000

/-- C5 counterexample — a primary MBR whose second entry has bootable byte
    0x7F: the claim's inclusive range 0x01..0x7F says the entry is rejected
    and enumeration stops after one child, but the code's exclusive range
    `0x01..0x7F` accepts 0x7F and all three populated entries become
    children. -/
theorem mbr_bootable_0x7F_counterexample :
    (readEntry c5disk (0 * 512 + 446 + 16 * 1)).bootable = 0x7F ∧
    invalidBootable (readEntry c5disk (0 * 512 + 446 + 16 * 1)) = false ∧
    (parseSectorChildren c5disk 1 true 0 0).length = 3 ∧
    ((parseSectorChildren c5disk 1 true 0 0)[1]?).map MbrNode.entry =
      some (some (readEntry c5disk (0 * 512 + 446 + 16 * 1))) := by
  refine ⟨?_, ?_, ?_, ?_⟩ <;> decide

/-- C5 amended — an entry whose bootable byte lies in the inclusive range
    0x01 through 0x7E is rejected (the code's range `0x01..0x7F` excludes
    0x7F itself): enumeration of that boot record stops at that entry and
    the children collected from earlier entries of the same sector are
    retained. -/
theorem mbr_invalid_bootable_stops (disk : Disk) (fuel : Nat) (isFirst : Bool)
    (off firstEbr : Nat) (i : Nat) (h4 : i < 4)
    (hprev : ∀ k < i, entryAccepted (readEntry disk (off * 512 + 446 + 16 * k)) = true)
    (hb1 : 1 ≤ (readEntry disk (off * 512 + 446 + 16 * i)).bootable)
    (hb2 : (readEntry disk (off * 512 + 446 + 16 * i)).bootable ≤ 0x7E) :
    parseSectorChildren disk (fuel + 1) isFirst off firstEbr =
      (List.range' 0 i).map
        (childFor disk isFirst off firstEbr (parseSectorChildren disk fuel false)) := by
  have hinv : invalidBootable (readEntry disk (off * 512 + 446 + 16 * i)) = true := by
    unfold invalidBootable
    simp only [Bool.and_eq_true, bne_iff_ne, ne_eq, decide_eq_true_eq]
    refine ⟨⟨by omega, by omega⟩, by omega, by omega⟩
  rw [parseSectorChildren_eq disk fuel isFirst off firstEbr i (by omega) hprev]
  obtain ⟨r', hr'⟩ : ∃ r', 4 - i = r' + 1 := ⟨3 - i, by omega⟩
  rw [hr', entryLoop_stop disk isFirst off firstEbr _ i r' hinv, List.append_nil]

/-- C5 amended witness — on the concrete disk `c5disk2` whose second entry
    has bootable 0x01, the parse returns exactly the first child. -/
theorem mbr_invalid_bootable_stops_witness :
    parseSectorChildren c5disk2 1 true 0 0 =
      (List.range' 0 1).map
        (childFor c5disk2 true 0 0 (parseSectorChildren c5disk2 0 false)) :=
  mbr_invalid_bootable_stops c5disk2 0 true 0 0 1 (by omega)
    (by decide) (by decide) (by decide)

/-- C6 — for an extended entry (type 0x05 or 0x0F) at index `i` of a parsed
    boot record: in the primary MBR (`is_first = true`) the decoder recurses
    into the sector at LBA `entry.starting_lba` and passes
    `first_ebr_lba = entry.starting_lba`; inside an EBR (`is_first = false`)
    it recurses into LBA `first_ebr_lba + entry.starting_lba` and passes
    `first_ebr_lba` unchanged. -/
theorem mbr_extended_recursion (disk : Disk) (fuel : Nat) (isFirst : Bool)
    (off firstEbr : Nat) (i : Nat) (h4 : i < 4)
    (hprev : ∀ k < i, entryAccepted (readEntry disk (off * 512 + 446 + 16 * k)) = true)
    (hacc : entryAccepted (readEntry disk (off * 512 + 446 + 16 * i)) = true)
    (hext : (readEntry disk (off * 512 + 446 + 16 * i)).isExtendedPartition = true) :
    (parseSectorChildren disk (fuel + 1) isFirst off firstEbr)[i]? =
      some (MbrNode.mk (some (readEntry disk (off * 512 + 446 + 16 * i)))
        (if isFirst then
          childrenOfList (parseSectorChildren disk fuel false
            (readEntry disk (off * 512 + 446 + 16 * i)).lbaStart
            (readEntry disk (off * 512 + 446 + 16 * i)).lbaStart)
         else
          childrenOfList (parseSectorChildren disk fuel false
            (firstEbr + (readEntry disk (off * 512 + 446 + 16 * i)).lbaStart) firstEbr))
        off) := by
  rw [parseSectorChildren_eq disk fuel isFirst off firstEbr i (by omega) hprev]
  obtain ⟨r', hr'⟩ : ∃ r', 4 - i = r' + 1 := ⟨3 - i, by omega⟩
  rw [hr', entryLoop_cons disk isFirst off firstEbr _ i r' hacc]
  have hlen : ((List.range' 0 i).map
      (childFor disk isFirst off firstEbr (parseSectorChildren disk fuel false))).length = i := by
    simp
  rw [List.getElem?_append_right (by simp)]
  rw [hlen, Nat.sub_self]
  simp only [List.getElem?_cons_zero]
  congr 1
  unfold childFor
  rw [if_pos hext]

/-- C6 witness — on the concrete disk `c6disk`, the primary MBR's first
    entry (type 0x05, start LBA 10) recurses at LBA 10 with
    `first_ebr_lba = 10`, and inside that EBR the second entry (type 0x05,
    start 5) recurses at LBA 10 + 5 keeping `first_ebr_lba = 10`. -/
theorem mbr_extended_recursion_witness :
    (parseSectorChildren c6disk 2 true 0 0)[0]? =
      some (MbrNode.mk (some (readEntry c6disk (0 * 512 + 446 + 16 * 0)))
        (if true then
          childrenOfList (parseSectorChildren c6disk 1 false
            (readEntry c6disk (0 * 512 + 446 + 16 * 0)).lbaStart
            (readEntry c6disk (0 * 512 + 446 + 16 * 0)).lbaStart)
         else
          childrenOfList (parseSectorChildren c6disk 1 false
            (0 + (readEntry c6disk (0 * 512 + 446 + 16 * 0)).lbaStart) 0))
        0) :=
  mbr_extended_recursion c6disk 1 true 0 0 0 (by omega)
    (by intro k hk; omega) (by decide) (by decide)

end MbrParser

namespace MbrParser

/-! ## MFT file records (src/mft.rs, `parse_mft_file_record`)

Each attribute iteration recreates a `ByteStream::from_byte_offset(path,
mft_record_size, offset)`: the window is `mft_record_size` bytes starting at
the enclosing sector boundary and the cursor starts at the intra-sector
remainder.  `get_byte_offset` adds the BufReader's logical position (which
sits at the end of the freshly-read window) to the cursor position, so every
recorded attribute offset exceeds the true absolute cursor position by the
window size.  The loop condition peeks a little-endian u32 on whatever
stream position the previous body read left behind. -/

/-- Window-buffered stream over the image, as built by
    `ByteStream::from_byte_offset`. -/
structure MftStream where
  winStart : Nat
  winSize : Nat
  pos : Nat
  deriving Repr, DecidableEq

/-- Embedding of `ByteStream::from_byte_offset(path, size, offset)`:
    buffer `size` bytes from the enclosing sector boundary, cursor at the
    intra-sector remainder; a short read is an io error. -/
def mftStreamAt (img : List Nat) (size offset : Nat) : Option MftStream :=
  if 512 * (offset / 512) + size ≤ img.length then
    some { winStart := 512 * (offset / 512), winSize := size, pos := offset % 512 }
  else none

/-- A `read_exact` of `n` bytes from the window cursor. -/
def streamReadBytes (img : List Nat) (s : MftStream) (n : Nat) :
    Option (List Nat × MftStream) :=
  if s.pos + n ≤ s.winSize then
    some (bytesAt img (s.winStart + s.pos) n, { s with pos := s.pos + n })
  else none

/-- Embedding of `peek_le::<u32>`: read four bytes without advancing. -/
def streamPeekLe32 (img : List Nat) (s : MftStream) : Option Nat :=
  (streamReadBytes img s 4).map (fun x => leNat x.1)

/-- Embedding of `get_byte_offset`: the BufReader's logical position
    (`winStart + winSize`, the end of the buffered window) plus the cursor
    position — `winSize` more than the cursor's absolute image offset. -/
def getByteOffset (s : MftStream) : Nat := s.winStart + s.winSize + s.pos

/-- UTF-16LE code units of a byte list (pairs, low byte first), as collected
    by `interpret_bytes_as_utf16`; surrogate validation (which the source
    turns into a panic) is not modelled, no claim depends on it. -/
def utf16Units : List Nat → List Nat
  | b1 :: b2 :: rest => (b1 + 256 * b2) :: utf16Units rest
  | _ => []

/-- Embedding of `CommonAttributeHeader`. -/
structure CommonAttributeHeader where
  attributeType : Nat
  length : Nat
  nonResidentFlag : Nat
  nameLength : Nat
  nameOffset : Nat
  flags : List Nat
  attributeId : Nat
  deriving Repr, DecidableEq

/-- Sequential 16-byte decode of `CommonAttributeHeader`. -/
def readCommonAttributeHeader (img : List Nat) (s : MftStream) :
    Option (CommonAttributeHeader × MftStream) := do
  let (b, s1) ← streamReadBytes img s 16
  some ({ attributeType := leNat (b.take 4)
          length := leNat ((b.drop 4).take 4)
          nonResidentFlag := b.getD 8 0
          nameLength := b.getD 9 0
          nameOffset := leNat ((b.drop 10).take 2)
          flags := (b.drop 12).take 2
          attributeId := leNat ((b.drop 14).take 2) }, s1)

/-- Embedding of `ResidentAttributeHeader`. -/
structure ResidentAttributeHeader where
  attributeLength : Nat
  attributeOffset : Nat
  indexedFlag : Nat
  deriving Repr, DecidableEq

/-- Sequential 7-byte decode of `ResidentAttributeHeader`. -/
def readResidentAttributeHeader (img : List Nat) (s : MftStream) :
    Option (ResidentAttributeHeader × MftStream) := do
  let (b, s1) ← streamReadBytes img s 7
  some ({ attributeLength := leNat (b.take 4)
          attributeOffset := leNat ((b.drop 4).take 2)
          indexedFlag := b.getD 6 0 }, s1)

/-- Embedding of `NonResidentAttributeHeader`. -/
structure NonResidentAttributeHeader where
  startingVcn : Nat
  endingVcn : Nat
  dataRunsOffset : Nat
  compressionUnitSize : Nat
  fileAllocationSize : Nat
  fileRealSize : Nat
  initialStreamSize : Nat
  deriving Repr, DecidableEq

/-- Sequential 48-byte decode of `NonResidentAttributeHeader` (including the
    four discarded padding bytes). -/
def readNonResidentAttributeHeader (img : List Nat) (s : MftStream) :
    Option (NonResidentAttributeHeader × MftStream) := do
  let (b, s1) ← streamReadBytes img s 48
  some ({ startingVcn := leNat (b.take 8)
          endingVcn := leNat ((b.drop 8).take 8)
          dataRunsOffset := leNat ((b.drop 16).take 2)
          compressionUnitSize := leNat ((b.drop 18).take 2)
          fileAllocationSize := leNat ((b.drop 24).take 8)
          fileRealSize := leNat ((b.drop 32).take 8)
          initialStreamSize := leNat ((b.drop 40).take 8) }, s1)

/-- Embedding of the `AttributeHeader` tagged variant. -/
inductive AttributeHeader where
  | residentNoName (common : CommonAttributeHeader) (resident : ResidentAttributeHeader)
  | residentNamed (common : CommonAttributeHeader) (resident : ResidentAttributeHeader)
      (attributeName : List Nat)
  | nonResidentNoName (common : CommonAttributeHeader)
      (nonResident : NonResidentAttributeHeader)
  | nonResidentNamed (common : CommonAttributeHeader)
      (nonResident : NonResidentAttributeHeader) (attributeName : List Nat)
  deriving Repr, DecidableEq

/-- The shared common header. -/
def AttributeHeader.commonHeader : AttributeHeader → CommonAttributeHeader
  | .residentNoName c _ => c
  | .residentNamed c _ _ => c
  | .nonResidentNoName c _ => c
  | .nonResidentNamed c _ _ => c

/-- Embedding of `AttributeHeader::attribute_type`. -/
def AttributeHeader.attributeType (h : AttributeHeader) : Nat :=
  h.commonHeader.attributeType

/-- Embedding of `AttributeHeader::attribute_length`. -/
def AttributeHeader.attributeLength (h : AttributeHeader) : Nat :=
  h.commonHeader.length

/-- Embedding of `AttributeHeader::file_allocation_size`. -/
def AttributeHeader.fileAllocationSize : AttributeHeader → Option Nat
  | .residentNoName _ _ => none
  | .residentNamed _ _ _ => none
  | .nonResidentNoName _ nr => some nr.fileAllocationSize
  | .nonResidentNamed _ nr _ => some nr.fileAllocationSize

/-- Embedding of the `Readable` impl of `AttributeHeader`: common header,
    then the resident tail (7 bytes plus one padding byte) or the
    non-resident tail (48 bytes), then `2 * name_length` bytes of UTF-16LE
    name when named. -/
def AttributeHeader.readFrom (img : List Nat) (s : MftStream) :
    Option (AttributeHeader × MftStream) := do
  let (common, s1) ← readCommonAttributeHeader img s
  if common.nonResidentFlag = 0 then
    let (resident, s2) ← readResidentAttributeHeader img s1
    let (_, s3) ← streamReadBytes img s2 1
    if 0 < common.nameLength then
      let (nb, s4) ← streamReadBytes img s3 (common.nameLength * 2)
      some (.residentNamed common resident (utf16Units nb), s4)
    else
      some (.residentNoName common resident, s3)
  else
    let (nonResident, s2) ← readNonResidentAttributeHeader img s1
    if 0 < common.nameLength then
      let (nb, s3) ← streamReadBytes img s2 (common.nameLength * 2)
      some (.nonResidentNamed common nonResident (utf16Units nb), s3)
    else
      some (.nonResidentNoName common nonResident, s2)

/-- The wrapping unix-seconds value `NtfsDatetime::read` derives from a
    stored FILETIME (u64 subtraction of the 1601 epoch, then division;
    checked builds panic for values below the epoch — the value itself plays
    no role in the claims). -/
def ntfsDatetimeOfOle2 (ft : Nat) : Nat :=
  (ft + 2 ^ 64 - 116444736000000000) % 2 ^ 64 / 10000000

/-- Embedding of `StandardInformation`. -/
structure StandardInformation where
  datetimeFileCreation : Nat
  datetimeFileModification : Nat
  datetimeMftModification : Nat
  datetimeFileReading : Nat
  filePermissionFlags : Nat
  maximumNumberVersions : Nat
  versionNumber : Nat
  deriving Repr, DecidableEq

/-- Sequential 48-byte decode of `StandardInformation`. -/
def readStandardInformation (img : List Nat) (s : MftStream) :
    Option (StandardInformation × MftStream) := do
  let (b, s1) ← streamReadBytes img s 48
  some ({ datetimeFileCreation := ntfsDatetimeOfOle2 (leNat (b.take 8))
          datetimeFileModification := ntfsDatetimeOfOle2 (leNat ((b.drop 8).take 8))
          datetimeMftModification := ntfsDatetimeOfOle2 (leNat ((b.drop 16).take 8))
          datetimeFileReading := ntfsDatetimeOfOle2 (leNat ((b.drop 24).take 8))
          filePermissionFlags := leNat ((b.drop 32).take 4)
          maximumNumberVersions := leNat ((b.drop 36).take 4)
          versionNumber := leNat ((b.drop 40).take 8) }, s1)

/-- Embedding of `FileName`. -/
structure FileName where
  referenceToParentDir : Nat
  datetimeFileCreation : Nat
  datetimeFileModification : Nat
  datetimeMftModification : Nat
  datetimeFileReading : Nat
  fileSizeAllocatedOnDisk : Nat
  realFileSize : Nat
  filePermissionFlags : Nat
  extendedAttributesAndReparse : Nat
  nameSize : Nat
  nameSpace : Nat
  name : List Nat
  deriving Repr, DecidableEq

/-- Sequential decode of `FileName`: 66 fixed bytes, `2 * name_size` name
    bytes, then 6 bytes of padding. -/
def readFileName (img : List Nat) (s : MftStream) :
    Option (FileName × MftStream) := do
  let (b, s1) ← streamReadBytes img s 66
  let nameSize := b.getD 64 0
  let (nb, s2) ← streamReadBytes img s1 (nameSize * 2)
  let (_, s3) ← streamReadBytes img s2 6
  some ({ referenceToParentDir := leNat (b.take 8)
          datetimeFileCreation := ntfsDatetimeOfOle2 (leNat ((b.drop 8).take 8))
          datetimeFileModification := ntfsDatetimeOfOle2 (leNat ((b.drop 16).take 8))
          datetimeMftModification := ntfsDatetimeOfOle2 (leNat ((b.drop 24).take 8))
          datetimeFileReading := ntfsDatetimeOfOle2 (leNat ((b.drop 32).take 8))
          fileSizeAllocatedOnDisk := leNat ((b.drop 40).take 8)
          realFileSize := leNat ((b.drop 48).take 8)
          filePermissionFlags := leNat ((b.drop 56).take 4)
          extendedAttributesAndReparse := leNat ((b.drop 60).take 4)
          nameSize := nameSize
          nameSpace := b.getD 65 0
          name := utf16Units nb }, s3)

/-- Embedding of `DataRun::read` as invoked by the attribute loop: the
    8-byte array comes off the stream, the decode itself is
    `DataRun.readRelease` (whose `none` stands for the decode panics). -/
def readDataRun (img : List Nat) (s : MftStream) :
    Option (DataRun.Val × MftStream) := do
  let (b, s1) ← streamReadBytes img s 8
  let v ← DataRun.readRelease b
  some (v, s1)

/-- Embedding of `MftAttribute`. -/
inductive MftAttribute where
  | standardInformation (si : StandardInformation)
  | fileName (fn : FileName)
  | data (dr : DataRun.Val)
  deriving Repr, DecidableEq

/-- Embedding of `MftFileDescriptor` (the fields the claims touch, plus the
    signature). -/
structure MftFileDescriptor where
  signature : List Nat
  offsetFirstAttribute : Nat
  flags : Nat
  hardLinkCount : Nat
  deriving Repr, DecidableEq

/-- Sequential 48-byte decode of `MftFileDescriptor` (field offsets follow
    its `Readable` impl: signature 0..4, hard-link count 18..20, offset of
    first attribute 20..22, flags 22..24). -/
def readMftFileDescriptor (img : List Nat) (s : MftStream) :
    Option (MftFileDescriptor × MftStream) := do
  let (b, s1) ← streamReadBytes img s 48
  some ({ signature := b.take 4
          offsetFirstAttribute := leNat ((b.drop 20).take 2)
          flags := leNat ((b.drop 22).take 2)
          hardLinkCount := leNat ((b.drop 18).take 2) }, s1)

/-- One recorded attribute: the offset `get_byte_offset` returned at the
    start of the body, the header, and the decoded body. -/
structure AttrEntry where
  offset : Nat
  header : AttributeHeader
  attr : MftAttribute
  deriving Repr, DecidableEq

/-- Embedding of `MftFileRecord`. -/
structure MftFileRecord where
  fileDescriptor : MftFileDescriptor
  attributes : List AttrEntry
  deriving Repr, DecidableEq

/-- The attribute loop of `parse_mft_file_record`.  Per iteration: peek a
    u32 on the stream the previous body read left behind (`0xFFFFFFFF`
    terminates), rebuild a window at `attributeStart + attributeOffset`,
    read the attribute header, stop if its type was decoded before
    (`duplicate_attribute_map`), then dispatch on the type: 0x10 and 0x30
    record the body with its `get_byte_offset` anchor and enter the
    duplicate map, 0x80 records the first data run unless
    `ignore_data_attribute`, anything else ends the loop.  `fuel` cuts off
    the source's potential non-termination on a zero-length attribute. -/
def parseAttributes (img : List Nat) (mftRecordSize attributeStart : Nat)
    (ignoreData : Bool) :
    Nat → Nat → List Nat → List AttrEntry → MftStream → Option (List AttrEntry)
  | 0, _, _, _, _ => none
  | fuel + 1, attributeOffset, dupMap, attrs, peekS => do
    let peeked ← streamPeekLe32 img peekS
    if peeked = 0xFFFFFFFF then some attrs
    else do
      let s ← mftStreamAt img mftRecordSize (attributeStart + attributeOffset)
      let (header, s1) ← AttributeHeader.readFrom img s
      if dupMap.contains header.attributeType then some attrs
      else if header.attributeType = 0x10 then do
        let (si, s2) ← readStandardInformation img s1
        parseAttributes img mftRecordSize attributeStart ignoreData fuel
          (attributeOffset + header.attributeLength) (dupMap ++ [0x10])
          (attrs ++ [{ offset := getByteOffset s1, header := header,
                       attr := .standardInformation si }]) s2
      else if header.attributeType = 0x30 then do
        let (fn, s2) ← readFileName img s1
        parseAttributes img mftRecordSize attributeStart ignoreData fuel
          (attributeOffset + header.attributeLength) (dupMap ++ [0x30])
          (attrs ++ [{ offset := getByteOffset s1, header := header,
                       attr := .fileName fn }]) s2
      else if header.attributeType = 0x80 then
        if ignoreData then some attrs
        else do
          let (dr, s2) ← readDataRun img s1
          parseAttributes img mftRecordSize attributeStart ignoreData fuel
            (attributeOffset + header.attributeLength) dupMap
            (attrs ++ [{ offset := getByteOffset s1, header := header,
                         attr := .data dr }]) s2
      else some attrs

/-- Embedding of `parse_mft_file_record`: outer `none` is an io error or a
    panic (the `todo!()` on a BAAD signature included), `some none` is the
    unknown-signature slot skip, `some (some record)` a decoded record. -/
def parseMftFileRecord (img : List Nat) (startingOffset mftRecordSize : Nat)
    (ignoreData : Bool) (fuel : Nat) : Option (Option MftFileRecord) :=
  match mftStreamAt img mftRecordSize startingOffset with
  | none => none
  | some s =>
    match readMftFileDescriptor img s with
    | none => none
    | some (desc, s1) =>
      if desc.signature = [0x46, 0x49, 0x4C, 0x45] then
        match parseAttributes img mftRecordSize
            (startingOffset + desc.offsetFirstAttribute) ignoreData fuel 0 [] [] s1 with
        | none => none
        | some attrs => some (some { fileDescriptor := desc, attributes := attrs })
      else if desc.signature = [0x42, 0x41, 0x41, 0x44] then none
      else some none

end MbrParser

namespace MbrParser

/-- Invariant of the attribute loop: each attribute type in the duplicate
    map was recorded at most once, and types outside it not at all, so every
    successful result holds at most one attribute of the duplicated types. -/
theorem parseAttributes_countP_le (img : List Nat) (mftRecordSize attributeStart : Nat)
    (ignoreData : Bool) (t : Nat) (ht : t = 0x10 ∨ t = 0x30) (fuel : Nat) :
    ∀ (attributeOffset : Nat) (dupMap : List Nat) (attrs : List AttrEntry)
      (peekS : MftStream) (result : List AttrEntry),
      parseAttributes img mftRecordSize attributeStart ignoreData fuel
        attributeOffset dupMap attrs peekS = some result →
      attrs.countP (fun a => a.header.attributeType == t) ≤
        (if t ∈ dupMap then 1 else 0) →
      result.countP (fun a => a.header.attributeType == t) ≤ 1 := by
  induction fuel with
  | zero =>
    intro attributeOffset dupMap attrs peekS result h _
    simp [parseAttributes] at h
  | succ fuel ih =>
    intro attributeOffset dupMap attrs attrStream result h hinv
    rw [parseAttributes] at h
    have hle : attrs.countP (fun a => a.header.attributeType == t) ≤ 1 := by
      refine le_trans hinv ?_
      split <;> omega
    cases hpeek : streamPeekLe32 img attrStream with
    | none => rw [hpeek] at h; simp at h
    | some peeked =>
      rw [hpeek] at h
      simp only [Option.bind_eq_bind, Option.some_bind] at h
      by_cases hff : peeked = 0xFFFFFFFF
      · rw [if_pos hff] at h
        cases h
        exact hle
      · rw [if_neg hff] at h
        cases hstr : mftStreamAt img mftRecordSize (attributeStart + attributeOffset) with
        | none => rw [hstr] at h; simp at h
        | some s =>
          rw [hstr] at h
          simp only [Option.some_bind] at h
          cases hhdr : AttributeHeader.readFrom img s with
          | none => rw [hhdr] at h; simp at h
          | some hs =>
            obtain ⟨header, s1⟩ := hs
            rw [hhdr] at h
            simp only [Option.some_bind] at h
            by_cases hdup : dupMap.contains header.attributeType
            · rw [if_pos hdup] at h
              cases h
              exact hle
            · rw [if_neg hdup] at h
              have hmono : ∀ u : Nat,
                  (if t ∈ dupMap then 1 else 0) ≤ (if t ∈ dupMap ++ [u] then 1 else 0) := by
                intro u
                by_cases hmem : t ∈ dupMap
                · simp [hmem]
                · simp [hmem]
              by_cases h10 : header.attributeType = 0x10
              · rw [if_pos h10] at h
                cases hsi : readStandardInformation img s1 with
                | none => rw [hsi] at h; simp at h
                | some sis =>
                  rw [hsi] at h
                  simp only [Option.some_bind] at h
                  refine ih _ _ _ _ _ h ?_
                  rw [List.countP_append]
                  rcases ht with rfl | rfl
                  · have hnot : (0x10 : Nat) ∉ dupMap := by
                      intro hc
                      exact hdup (List.contains_iff_exists_mem_beq.mpr
                        ⟨0x10, hc, by simp [h10]⟩)
                    have h0 : attrs.countP (fun a => a.header.attributeType == 0x10) = 0 := by
                      have := hinv
                      rw [if_neg hnot] at this
                      omega
                    simp [h0, List.countP_cons, h10]
                  · have : ((0x30 : Nat) ∈ dupMap ++ [0x10]) ↔ (0x30 : Nat) ∈ dupMap := by
                      simp
                    rw [if_congr this rfl rfl]
                    have hc : List.countP (fun (a : AttrEntry) => a.header.attributeType == 0x30)
                        [{ offset := getByteOffset s1, header := header,
                           attr := .standardInformation sis.1 }] = 0 := by
                      simp [List.countP_cons, h10]
                    omega
              · rw [if_neg h10] at h
                by_cases h30 : header.attributeType = 0x30
                · rw [if_pos h30] at h
                  cases hfn : readFileName img s1 with
                  | none => rw [hfn] at h; simp at h
                  | some fns =>
                    rw [hfn] at h
                    simp only [Option.some_bind] at h
                    refine ih _ _ _ _ _ h ?_
                    rw [List.countP_append]
                    rcases ht with rfl | rfl
                    · have : ((0x10 : Nat) ∈ dupMap ++ [0x30]) ↔ (0x10 : Nat) ∈ dupMap := by
                        simp
                      rw [if_congr this rfl rfl]
                      have hc : List.countP (fun (a : AttrEntry) => a.header.attributeType == 0x10)
                          [{ offset := getByteOffset s1, header := header,
                             attr := .fileName fns.1 }] = 0 := by
                        simp [List.countP_cons, h30]
                      omega
                    · have hnot : (0x30 : Nat) ∉ dupMap := by
                        intro hc
                        exact hdup (List.contains_iff_exists_mem_beq.mpr
                          ⟨0x30, hc, by simp [h30]⟩)
                      have h0 : attrs.countP (fun a => a.header.attributeType == 0x30) = 0 := by
                        have := hinv
                        rw [if_neg hnot] at this
                        omega
                      simp [h0, List.countP_cons, h30]
                · rw [if_neg h30] at h
                  by_cases h80 : header.attributeType = 0x80
                  · rw [if_pos h80] at h
                    by_cases hig : ignoreData
                    · rw [if_pos hig] at h
                      cases h
                      exact hle
                    · rw [if_neg hig] at h
                      cases hdr : readDataRun img s1 with
                      | none => rw [hdr] at h; simp at h
                      | some drs =>
                        rw [hdr] at h
                        simp only [Option.some_bind] at h
                        refine ih _ _ _ _ _ h ?_
                        rw [List.countP_append]
                        have hc : List.countP (fun (a : AttrEntry) => a.header.attributeType == t)
                            [{ offset := getByteOffset s1, header := header,
                               attr := .data drs.1 }] = 0 := by
                          rcases ht with rfl | rfl <;> simp [List.countP_cons, h80]
                        omega
                  · rw [if_neg h80] at h
                    cases h
                    exact hle

/-- C7 amended — within a single MFT record, the parser records at most one
    $STANDARD_INFORMATION (0x10) and at most one $FILE_NAME (0x30)
    attribute: an attribute whose type was decoded before terminates the
    iteration (rather than being skipped), so no duplicate is recorded. -/
theorem parseMftFileRecord_single_per_type (img : List Nat)
    (startingOffset mftRecordSize : Nat) (ignoreData : Bool) (fuel : Nat)
    (rec : MftFileRecord)
    (h : parseMftFileRecord img startingOffset mftRecordSize ignoreData fuel =
      some (some rec)) :
    rec.attributes.countP (fun a => a.header.attributeType == 0x30) ≤ 1 ∧
      rec.attributes.countP (fun a => a.header.attributeType == 0x10) ≤ 1 := by
  unfold parseMftFileRecord at h
  split at h
  · simp at h
  · split at h
    · simp at h
    · rename_i s desc_s1
      split at h
      · rename_i hsig
        split at h
        · simp at h
        · rename_i attrs hattrs
          have hrec : rec.attributes = attrs := by
            injection h with h1
            injection h1 with h2
            rw [← h2]
          rw [hrec]
          constructor
          · exact parseAttributes_countP_le img mftRecordSize _ ignoreData 0x30
              (Or.inr rfl) fuel 0 [] [] _ attrs hattrs (by simp)
          · exact parseAttributes_countP_le img mftRecordSize _ ignoreData 0x10
              (Or.inl rfl) fuel 0 [] [] _ attrs hattrs (by simp)
      · split at h
        · simp at h
        · simp at h

end MbrParser

namespace MbrParser

/-- A sample FILETIME (the spec's `0x01D9_1DE0_F4BC_4800`) as eight
    little-endian bytes. -/
def ole2sample : List Nat := [0x00, 0x48, 0xBC, 0xF4, 0xE0, 0x1D, 0xD9, 0x01]

/-- A 1024-byte MFT record image: a FILE header whose first attribute (a
    resident unnamed $FILE_NAME, length 104) sits at offset 48, a second
    $FILE_NAME attribute header at offset 152, and a $STANDARD_INFORMATION
    attribute at offset 256 that a skip-and-continue iteration would still
    decode. -/
def c7img : List Nat :=
  [0x46, 0x49, 0x4C, 0x45] ++ List.replicate 16 0 ++ [48, 0] ++ List.replicate 26 0 ++
  [0x30, 0, 0, 0] ++ [104, 0, 0, 0] ++ [0, 0, 0, 0, 0, 0, 0, 0] ++
  [74, 0, 0, 0] ++ [24, 0] ++ [0, 0] ++
  [5, 0, 0, 0, 0, 0, 0, 0] ++
  ole2sample ++ ole2sample ++ ole2sample ++ ole2sample ++
  List.replicate 16 0 ++ List.replicate 8 0 ++
  [1, 1, 0x41, 0] ++ List.replicate 6 0 ++
  List.replicate 6 0 ++
  [0x30, 0, 0, 0] ++ [104, 0, 0, 0] ++ [0, 0, 0, 0, 0, 0, 0, 0] ++
  [74, 0, 0, 0] ++ [24, 0] ++ [0, 0] ++
  List.replicate 80 0 ++
  [0x10, 0, 0, 0] ++ [72, 0, 0, 0] ++ [0, 0, 0, 0, 0, 0, 0, 0] ++
  [48, 0, 0, 0] ++ [24, 0] ++ [0, 0] ++
  List.replicate 48 7 ++
  List.replicate 696 0

set_option maxRecDepth 40000

/-- C7 counterexample — on `c7img` the second $FILE_NAME attribute (at
    offset 152) terminates attribute iteration: the parsed record holds only
    the first $FILE_NAME, and the $STANDARD_INFORMATION attribute at offset
    256 is never decoded, contradicting the claim that iteration otherwise
    continues over the remaining attributes of the record. -/
theorem mft_duplicate_terminates_counterexample :
    (parseMftFileRecord c7img 0 1024 true 8).map
        (Option.map (fun rec => rec.attributes.map (fun a => a.header.attributeType))) =
      some (some [0x30]) ∧
    readLe c7img 152 4 = 0x30 ∧ readLe c7img 256 4 = 0x10 := by
  refine ⟨?_, ?_, ?_⟩ <;> decide

/-- The concrete record `parse_mft_file_record` produces on `c7img`. -/
def c7rec : MftFileRecord :=
  ⟨⟨[70, 73, 76, 69], 48, 0, 0⟩,
   [⟨1096,
     AttributeHeader.residentNoName ⟨48, 104, 0, 0, 0, [0, 0], 0⟩ ⟨74, 24, 0⟩,
     MftAttribute.fileName
       ⟨5, 1672578000, 1672578000, 1672578000, 1672578000, 0, 0, 0, 0, 1, 1, [65]⟩⟩]⟩

/-- Witness for C7: on the concrete record `c7img` decodes to,
    `parseMftFileRecord_single_per_type` applies and the collected
    attributes indeed hold at most one 0x30 and at most one 0x10 entry. -/
theorem parseMftFileRecord_single_per_type_witness :
    parseMftFileRecord c7img 0 1024 true 8 = some (some c7rec) ∧
    (c7rec.attributes.countP (fun a => a.header.attributeType == 0x30) ≤ 1 ∧
     c7rec.attributes.countP (fun a => a.header.attributeType == 0x10) ≤ 1) :=
  ⟨by decide, parseMftFileRecord_single_per_type c7img 0 1024 true 8 c7rec (by decide)⟩

end MbrParser

namespace MbrParser

/-! ## Timestomp (src/mft.rs, `timestomp_mft`, lines 817-862)

`timestomp_mft` filters the records by `has_file_name_attribute`, takes the
first match, finds its first 0x30 and first 0x10 attributes (`unwrap`
panics when the latter is absent), and for i in 0..4 writes the 8-byte
little-endian OLE2 timestamp at `stdinfo.0 + i*8` and at `fn.0 + 8 + i*8`. -/

/-- Embedding of `MftFileRecord::has_file_name_attribute`: among the 0x30
    attributes, find one whose $FILE_NAME body carries the requested name. -/
def MftFileRecord.hasFileNameAttribute (rec : MftFileRecord) (fileName : List Nat) : Bool :=
  ((rec.attributes.filter (fun a => a.header.attributeType == 0x30)).find?
    (fun a =>
      match a.attr with
      | .fileName fn => fn.name == fileName
      | _ => false)).isSome

/-- Write a byte list into the image starting at `p` (a seek followed by a
    write; the source would grow the file when writing past the end, which
    the model does not represent — the frame theorem assumes in-bounds
    writes). -/
def writeBytes (img : List Nat) (p : Nat) : List Nat → List Nat
  | [] => img
  | b :: bs => writeBytes (img.set p b) (p + 1) bs

/-- Embedding of `write_uint::<LittleEndian>(v, 8)` at position `p`. -/
def writeLe8 (img : List Nat) (p v : Nat) : List Nat :=
  writeBytes img p (u64LeBytes v)

/-- The write loop of `timestomp_mft`: for i in 0..4, an 8-byte write at
    `stdinfo.0 + i*8` followed by one at `fn.0 + 8 + i*8`, both of the
    little-endian OLE2 value. -/
def timestompWrites (img : List Nat) (siOff fnOff v : Nat) : List Nat :=
  (List.range 4).foldl
    (fun acc i => writeLe8 (writeLe8 acc (siOff + i * 8) v) (fnOff + 8 + i * 8) v) img

/-- Embedding of `timestomp_mft`.  `none` stands for the no-matching-record
    path (which writes nothing) and for the panicking `unwrap` on a record
    without a 0x10 attribute. -/
def timestompMft (img : List Nat) (records : List MftFileRecord)
    (fileName : List Nat) (timestamp : Nat) : Option (List Nat) :=
  match records.filter (fun r => r.hasFileNameAttribute fileName) with
  | [] => none
  | record :: _ =>
    match record.attributes.find? (fun a => a.header.attributeType == 0x30),
        record.attributes.find? (fun a => a.header.attributeType == 0x10) with
    | some fnAttrib, some stdinfoAttrib =>
      some (timestompWrites img stdinfoAttrib.offset fnAttrib.offset (unixToOle2 timestamp))
    | _, _ => none

/-- `writeBytes` preserves the image length. -/
theorem writeBytes_length (bs : List Nat) :
    ∀ (img : List Nat) (p : Nat), (writeBytes img p bs).length = img.length := by
  induction bs with
  | nil => intro img p; rfl
  | cons b bs ih =>
    intro img p
    show (writeBytes (img.set p b) (p + 1) bs).length = _
    rw [ih, List.length_set]

/-- Bytes outside the written block are untouched. -/
theorem writeBytes_getD_out (bs : List Nat) :
    ∀ (img : List Nat) (p q : Nat), (q < p ∨ p + bs.length ≤ q) →
      (writeBytes img p bs).getD q 0 = img.getD q 0 := by
  induction bs with
  | nil => intro img p q _; rfl
  | cons b bs ih =>
    intro img p q hq
    show (writeBytes (img.set p b) (p + 1) bs).getD q 0 = _
    rw [ih (img.set p b) (p + 1) q (by simp at hq ⊢; omega)]
    have hne : p ≠ q := by simp at hq; omega
    simp [List.getD_eq_getElem?_getD, List.getElem?_set_ne hne]

/-- Bytes inside the written block take the written values. -/
theorem writeBytes_getD_in (bs : List Nat) :
    ∀ (img : List Nat) (p k : Nat), k < bs.length → p + bs.length ≤ img.length →
      (writeBytes img p bs).getD (p + k) 0 = bs.getD k 0 := by
  induction bs with
  | nil => intro img p k hk _; simp at hk
  | cons b bs ih =>
    intro img p k hk hlen
    show (writeBytes (img.set p b) (p + 1) bs).getD (p + k) 0 = _
    match k with
    | 0 =>
      rw [writeBytes_getD_out bs (img.set p b) (p + 1) (p + 0) (by omega)]
      have hp : p < img.length := by simp at hlen; omega
      simp [List.getD_eq_getElem?_getD, List.getElem?_set_self hp]
    | k' + 1 =>
      have : p + (k' + 1) = (p + 1) + k' := by omega
      rw [this, ih (img.set p b) (p + 1) k' (by simp at hk; omega)
        (by simp at hlen ⊢; omega)]
      rfl

/-- The little-endian bytes of `v`, indexed. -/
theorem u64LeBytes_getD (v k : Nat) (hk : k < 8) :
    (u64LeBytes v).getD k 0 = leByte v k := by
  simp [u64LeBytes, leByte, List.getD_eq_getElem?_getD, List.getElem?_map,
    List.getElem?_range hk]

/-- `writeLe8` preserves the image length. -/
theorem writeLe8_length (img : List Nat) (p v : Nat) :
    (writeLe8 img p v).length = img.length :=
  writeBytes_length (u64LeBytes v) img p

/-- A byte outside a `writeLe8` block is untouched. -/
theorem writeLe8_getD_out (img : List Nat) (p v q : Nat) (hq : q < p ∨ p + 8 ≤ q) :
    (writeLe8 img p v).getD q 0 = img.getD q 0 :=
  writeBytes_getD_out (u64LeBytes v) img p q (by simp [u64LeBytes]; omega)

/-- A byte inside a `writeLe8` block is the corresponding little-endian byte
    of the written value. -/
theorem writeLe8_getD_in (img : List Nat) (p v k : Nat) (hk : k < 8)
    (hlen : p + 8 ≤ img.length) :
    (writeLe8 img p v).getD (p + k) 0 = leByte v k := by
  unfold writeLe8
  rw [writeBytes_getD_in (u64LeBytes v) img p k (by simp [u64LeBytes]; omega)
    (by simp [u64LeBytes]; omega)]
  exact u64LeBytes_getD v k hk

/-- Folding `writeLe8` over a list of positions preserves the length. -/
theorem foldWrites_length (v : Nat) :
    ∀ (ws : List Nat) (img : List Nat),
      (ws.foldl (fun acc w => writeLe8 acc w v) img).length = img.length := by
  intro ws
  induction ws with
  | nil => intro img; rfl
  | cons w ws ih =>
    intro img
    show (ws.foldl (fun acc w => writeLe8 acc w v) (writeLe8 img w v)).length = _
    rw [ih, writeLe8_length]

/-- A byte outside every written block survives the whole write sequence. -/
theorem foldWrites_getD_out (v : Nat) :
    ∀ (ws : List Nat) (img : List Nat) (p : Nat),
      (∀ w ∈ ws, p < w ∨ w + 8 ≤ p) →
      (ws.foldl (fun acc w => writeLe8 acc w v) img).getD p 0 = img.getD p 0 := by
  intro ws
  induction ws with
  | nil => intro img p _; rfl
  | cons w ws ih =>
    intro img p hp
    show (ws.foldl (fun acc w => writeLe8 acc w v) (writeLe8 img w v)).getD p 0 = _
    rw [ih (writeLe8 img w v) p (fun w2 hw2 => hp w2 (List.mem_cons_of_mem w hw2)),
      writeLe8_getD_out img w v p (by
        have := hp w (List.mem_cons_self w ws)
        omega)]

/-- A byte inside the block of one of the written positions — disjoint from
    or identical to every other written position — ends up holding the
    corresponding little-endian byte of the written value. -/
theorem foldWrites_getD_in (v : Nat) :
    ∀ (ws : List Nat) (img : List Nat) (w k : Nat), w ∈ ws → k < 8 →
      (∀ w2 ∈ ws, w2 = w ∨ w2 + 8 ≤ w ∨ w + 8 ≤ w2) →
      w + 8 ≤ img.length →
      (ws.foldl (fun acc w => writeLe8 acc w v) img).getD (w + k) 0 = leByte v k := by
  intro ws
  induction ws with
  | nil => intro img w k hw _ _ _; simp at hw
  | cons w2 ws ih =>
    intro img w k hw hk hdis hlen
    show (ws.foldl (fun acc w => writeLe8 acc w v) (writeLe8 img w2 v)).getD (w + k) 0 = _
    by_cases hmem : w ∈ ws
    · exact ih (writeLe8 img w2 v) w k hmem hk
        (fun w3 hw3 => hdis w3 (List.mem_cons_of_mem w2 hw3))
        (by rw [writeLe8_length]; exact hlen)
    · have hww2 : w2 = w := by
        rcases List.mem_cons.mp hw with h | h
        · exact h.symm
        · exact absurd h hmem
      subst hww2
      rw [foldWrites_getD_out v ws (writeLe8 img w2 v) (w2 + k) (by
        intro w3 hw3
        rcases hdis w3 (List.mem_cons_of_mem w2 hw3) with h | h | h
        · exact absurd (h ▸ hw3) hmem
        · omega
        · omega)]
      exact writeLe8_getD_in img w2 v k hk hlen

end MbrParser

namespace MbrParser

/-- The eight writes of `timestompWrites`, flattened into one write list
    (interleaved in execution order). -/
theorem timestompWrites_eq (img : List Nat) (si fn v : Nat) :
    timestompWrites img si fn v =
      [si + 0 * 8, fn + 8 + 0 * 8, si + 1 * 8, fn + 8 + 1 * 8, si + 2 * 8, fn + 8 + 2 * 8,
       si + 3 * 8, fn + 8 + 3 * 8].foldl (fun acc w => writeLe8 acc w v) img := by
  unfold timestompWrites
  rw [show List.range 4 = [0, 1, 2, 3] from rfl]
  simp only [List.foldl_cons, List.foldl_nil]

/-- C1 — a successful timestomp run on an image holding a record whose
    $FILE_NAME name matches rewrites exactly the 64 bytes at
    `O_si + 8*i .. +8` and `O_fn + 8 + 8*i .. +8` (i in 0..4), where `O_si`
    and `O_fn` are the recorded offsets of the record's first 0x10 and first
    0x30 attribute bodies, each write being the 8-byte little-endian OLE2
    encoding of the timestamp; every other byte of the image is unchanged. -/
theorem timestomp_frame (img : List Nat) (records : List MftFileRecord)
    (fileName : List Nat) (t : Nat) (record : MftFileRecord) (fnA siA : AttrEntry)
    (hrec : (records.filter (fun r => r.hasFileNameAttribute fileName)).head? =
      some record)
    (hfn : record.attributes.find? (fun a => a.header.attributeType == 0x30) = some fnA)
    (hsi : record.attributes.find? (fun a => a.header.attributeType == 0x10) = some siA)
    (hsiB : siA.offset + 32 ≤ img.length)
    (hfnB : fnA.offset + 40 ≤ img.length)
    (hdisj : siA.offset + 32 ≤ fnA.offset + 8 ∨ fnA.offset + 40 ≤ siA.offset) :
    ∃ img2, timestompMft img records fileName t = some img2 ∧
      img2.length = img.length ∧
      (∀ i < 4, ∀ k < 8,
        img2.getD (siA.offset + 8 * i + k) 0 = leByte (unixToOle2 t) k) ∧
      (∀ i < 4, ∀ k < 8,
        img2.getD (fnA.offset + 8 + 8 * i + k) 0 = leByte (unixToOle2 t) k) ∧
      (∀ p < img.length,
        (p < siA.offset ∨ siA.offset + 32 ≤ p) →
        (p < fnA.offset + 8 ∨ fnA.offset + 40 ≤ p) →
        img2.getD p 0 = img.getD p 0) := by
  cases hcase : records.filter (fun r => r.hasFileNameAttribute fileName) with
  | nil => rw [hcase] at hrec; simp at hrec
  | cons a rest =>
    rw [hcase] at hrec
    simp only [List.head?_cons, Option.some.injEq] at hrec
    subst hrec
    have himg : timestompMft img records fileName t =
        some (timestompWrites img siA.offset fnA.offset (unixToOle2 t)) := by
      unfold timestompMft
      simp only [hcase, hfn, hsi]
    rw [himg, timestompWrites_eq]
    refine ⟨_, rfl, ?_, ?_, ?_, ?_⟩
    · rw [foldWrites_length]
    · intro i hi k hk
      have hpos : siA.offset + 8 * i + k = (siA.offset + i * 8) + k := by ring
      rw [hpos]
      refine foldWrites_getD_in (unixToOle2 t) _ img (siA.offset + i * 8) k
        ?_ hk ?_ ?_
      · simp only [List.mem_cons, List.not_mem_nil, or_false]
        omega
      · intro w2 hw2
        simp only [List.mem_cons, List.not_mem_nil, or_false] at hw2
        omega
      · omega
    · intro i hi k hk
      have hpos : fnA.offset + 8 + 8 * i + k = (fnA.offset + 8 + i * 8) + k := by ring
      rw [hpos]
      refine foldWrites_getD_in (unixToOle2 t) _ img (fnA.offset + 8 + i * 8) k
        ?_ hk ?_ ?_
      · simp only [List.mem_cons, List.not_mem_nil, or_false]
        omega
      · intro w2 hw2
        simp only [List.mem_cons, List.not_mem_nil, or_false] at hw2
        omega
      · omega
    · intro p hp h1 h2
      refine foldWrites_getD_out (unixToOle2 t) _ img p ?_
      intro w hw
      simp only [List.mem_cons, List.not_mem_nil, or_false] at hw
      omega

/-- The record used by the C1 witness: a $STANDARD_INFORMATION attribute
    recorded at offset 8 and a $FILE_NAME attribute (name code unit 0x41)
    recorded at offset 48. -/
def c1record : MftFileRecord :=
  { fileDescriptor := { signature := [0x46, 0x49, 0x4C, 0x45],
                        offsetFirstAttribute := 48, flags := 1, hardLinkCount := 1 }
    attributes :=
      [{ offset := 8
         header := .residentNoName
           { attributeType := 0x10, length := 72, nonResidentFlag := 0, nameLength := 0,
             nameOffset := 0, flags := [0, 0], attributeId := 0 }
           { attributeLength := 48, attributeOffset := 24, indexedFlag := 0 }
         attr := .standardInformation
           { datetimeFileCreation := 0, datetimeFileModification := 0,
             datetimeMftModification := 0, datetimeFileReading := 0,
             filePermissionFlags := 0, maximumNumberVersions := 0, versionNumber := 0 } },
       { offset := 48
         header := .residentNoName
           { attributeType := 0x30, length := 104, nonResidentFlag := 0, nameLength := 0,
             nameOffset := 0, flags := [0, 0], attributeId := 0 }
           { attributeLength := 74, attributeOffset := 24, indexedFlag := 0 }
         attr := .fileName
           { referenceToParentDir := 5, datetimeFileCreation := 0,
             datetimeFileModification := 0, datetimeMftModification := 0,
             datetimeFileReading := 0, fileSizeAllocatedOnDisk := 0, realFileSize := 0,
             filePermissionFlags := 0, extendedAttributesAndReparse := 0, nameSize := 1,
             nameSpace := 1, name := [0x41] } }] }

/-- C1 witness — the frame property instantiated on a 100-byte image and
    the concrete record above. -/
theorem timestomp_frame_witness :
    ∃ img2, timestompMft (List.replicate 100 2) [c1record] [0x41] 1691641200 =
        some img2 ∧
      img2.length = (List.replicate 100 2 : List Nat).length ∧
      (∀ i < 4, ∀ k < 8,
        img2.getD (8 + 8 * i + k) 0 = leByte (unixToOle2 1691641200) k) ∧
      (∀ i < 4, ∀ k < 8,
        img2.getD (48 + 8 + 8 * i + k) 0 = leByte (unixToOle2 1691641200) k) ∧
      (∀ p < (List.replicate 100 2 : List Nat).length,
        (p < 8 ∨ 8 + 32 ≤ p) → (p < 48 + 8 ∨ 48 + 40 ≤ p) →
        img2.getD p 0 = (List.replicate 100 2 : List Nat).getD p 0) := by
  have h := timestomp_frame (List.replicate 100 2) [c1record] [0x41] 1691641200
    c1record
    { offset := 48
      header := .residentNoName
        { attributeType := 0x30, length := 104, nonResidentFlag := 0, nameLength := 0,
          nameOffset := 0, flags := [0, 0], attributeId := 0 }
        { attributeLength := 74, attributeOffset := 24, indexedFlag := 0 }
      attr := .fileName
        { referenceToParentDir := 5, datetimeFileCreation := 0,
          datetimeFileModification := 0, datetimeMftModification := 0,
          datetimeFileReading := 0, fileSizeAllocatedOnDisk := 0, realFileSize := 0,
          filePermissionFlags := 0, extendedAttributesAndReparse := 0, nameSize := 1,
          nameSpace := 1, name := [0x41] } }
    { offset := 8
      header := .residentNoName
        { attributeType := 0x10, length := 72, nonResidentFlag := 0, nameLength := 0,
          nameOffset := 0, flags := [0, 0], attributeId := 0 }
        { attributeLength := 48, attributeOffset := 24, indexedFlag := 0 }
      attr := .standardInformation
        { datetimeFileCreation := 0, datetimeFileModification := 0,
          datetimeMftModification := 0, datetimeFileReading := 0,
          filePermissionFlags := 0, maximumNumberVersions := 0, versionNumber := 0 } }
    (by decide) (by decide) (by decide) (by decide) (by decide) (by decide)
  simpa using h

end MbrParser

namespace MbrParser

/-! ## GPT decoder (src/gpt.rs, `parse_gpt`, `is_valid_header_crc32`)

The GPT code reads the header at LBA 1 through a transmute-style
`ByteStream::read` (all header fields are byte arrays, laid out in
declaration order), validates two CRC32s whose mismatch branches are empty
(`// FIXME: Check backup header if crc32 fails.`), and then collects
partition entries sector by sector, stopping within each sector at the
first all-zero entry. -/

/-- Eight rounds of the bitwise CRC32 inner loop of `calculate_crc32`
    (IEEE-802.3 reflected polynomial 0xEDB88320).  All intermediate values
    stay below `2 ^ 32`. -/
def crc32Bits : Nat → Nat → Nat → Nat
  | 0, crc, _ => crc
  | n + 1, crc, byte =>
    let tmp := (byte ^^^ crc) &&& 1
    let crc2 := crc >>> 1
    crc32Bits n (if tmp ≠ 0 then crc2 ^^^ 0xEDB88320 else crc2) (byte >>> 1)

/-- Embedding of `calculate_crc32`: fold the bytes through the bit loop from
    initial value 0xFFFFFFFF, then complement (u32 bitwise-not is xor with
    0xFFFFFFFF for values below `2 ^ 32`). -/
def calculateCrc32 (bytes : List Nat) : Nat :=
  (bytes.foldl (fun crc byte => crc32Bits 8 crc byte) 0xFFFFFFFF) ^^^ 0xFFFFFFFF

/-- Embedding of `GptHeader`: fourteen raw byte-array fields, 92 bytes in
    declaration order. -/
structure GptHeader where
  efiPart : List Nat
  revision : List Nat
  headerSize : List Nat
  crc32 : List Nat
  reserved : List Nat
  currentLba : List Nat
  backupLba : List Nat
  firstUsableLba : List Nat
  lastUsableLba : List Nat
  diskGuid : List Nat
  startingLbaOfPartitionEntries : List Nat
  numberPartitionEntries : List Nat
  sizeSinglePartitionEntry : List Nat
  crc32PartitionEntries : List Nat
  deriving Repr, DecidableEq

/-- Decode of the header at LBA 1 (92 bytes at byte offset 512); a shorter
    image is an io error. -/
def parseGptHeader (img : List Nat) : Option GptHeader :=
  if 512 + 92 ≤ img.length then
    some { efiPart := bytesAt img 512 8
           revision := bytesAt img 520 4
           headerSize := bytesAt img 524 4
           crc32 := bytesAt img 528 4
           reserved := bytesAt img 532 4
           currentLba := bytesAt img 536 8
           backupLba := bytesAt img 544 8
           firstUsableLba := bytesAt img 552 8
           lastUsableLba := bytesAt img 560 8
           diskGuid := bytesAt img 568 16
           startingLbaOfPartitionEntries := bytesAt img 584 8
           numberPartitionEntries := bytesAt img 592 4
           sizeSinglePartitionEntry := bytesAt img 596 4
           crc32PartitionEntries := bytesAt img 600 4 }
  else none

/-- Embedding of `GptHeader::header_size`. -/
def GptHeader.headerSizeVal (h : GptHeader) : Nat := leNat h.headerSize

/-- Embedding of `GptHeader::starting_lba_of_partition_entries`. -/
def GptHeader.startingLbaVal (h : GptHeader) : Nat :=
  leNat h.startingLbaOfPartitionEntries

/-- Embedding of `GptHeader::number_partition_entries`. -/
def GptHeader.numberPartitionEntriesVal (h : GptHeader) : Nat :=
  leNat h.numberPartitionEntries

/-- Embedding of `GptHeader::size_single_partition_entry`. -/
def GptHeader.sizeSinglePartitionEntryVal (h : GptHeader) : Nat :=
  leNat h.sizeSinglePartitionEntry

/-- Embedding of `is_valid_header_crc32`: re-read `header_size` bytes at
    LBA 1 (`read_raw_bytes`, modelled from the spec's window read — the
    ByteStream variant gpt.rs uses is not among the sources), splice zeroes
    over the 4-byte CRC field at offset 16, compute CRC32 and compare with
    the stored little-endian value.  A short read or a splice out of range
    surfaces as an error. -/
def isValidHeaderCrc32 (img : List Nat) (headerSize : Nat) (crcBytes : List Nat) :
    Option Bool :=
  if 512 + headerSize ≤ img.length ∧ 20 ≤ headerSize then
    some (calculateCrc32 ((bytesAt img 512 headerSize).take 16 ++
      List.replicate 4 0 ++ (bytesAt img 512 headerSize).drop 20) == leNat crcBytes)
  else none

/-- Embedding of `GptPartitionTableEntry`: 128 bytes of raw fields. -/
structure GptPartitionTableEntry where
  partitionTypeGuid : List Nat
  uniquePartitionGuid : List Nat
  startingLba : List Nat
  endingLba : List Nat
  attributeFlags : List Nat
  partitionName : List Nat
  deriving Repr, DecidableEq

/-- Transmute-style decode of a partition entry at byte offset `p`. -/
def readGptEntry (img : List Nat) (p : Nat) : GptPartitionTableEntry :=
  { partitionTypeGuid := bytesAt img p 16
    uniquePartitionGuid := bytesAt img (p + 16) 16
    startingLba := bytesAt img (p + 32) 8
    endingLba := bytesAt img (p + 40) 8
    attributeFlags := bytesAt img (p + 48) 8
    partitionName := bytesAt img (p + 56) 72 }

/-- Embedding of `GptPartitionTableEntry::is_empty`: every byte of every
    field is zero. -/
def GptPartitionTableEntry.isEmpty (e : GptPartitionTableEntry) : Bool :=
  e.partitionTypeGuid.all (· == 0) && e.uniquePartitionGuid.all (· == 0) &&
    e.startingLba.all (· == 0) && e.endingLba.all (· == 0) &&
    e.attributeFlags.all (· == 0) && e.partitionName.all (· == 0)

/-- The per-sector entry loop of `parse_gpt`: peek 128-byte entries from
    byte offset `p`, stopping at the first empty entry; a peek past the end
    of the image is an io error that aborts the parse.  `fuel` bounds the
    loop (any value above `img.length / 128 + 1` is exact). -/
def readEntriesFrom (img : List Nat) : Nat → Nat → Option (List GptPartitionTableEntry)
  | _, 0 => none
  | p, fuel + 1 =>
    if p + 128 ≤ img.length then
      if (readGptEntry img p).isEmpty then some []
      else
        match readEntriesFrom img (p + 128) fuel with
        | none => none
        | some es => some (readGptEntry img p :: es)
    else none

/-- The sector loop of `parse_gpt`: for `index in 0..number_of_sectors`,
    run the entry loop at LBA `start + index` and concatenate. -/
def gptEntriesLoop (img : List Nat) (startLba : Nat) :
    Nat → Nat → Option (List GptPartitionTableEntry)
  | _, 0 => some []
  | index, n + 1 =>
    match readEntriesFrom img ((startLba + index) * 512) (img.length / 128 + 1) with
    | none => none
    | some es =>
      match gptEntriesLoop img startLba (index + 1) n with
      | none => none
      | some rest => some (es ++ rest)

/-- Embedding of `parse_gpt`: read the header, check the header CRC and the
    entry-array CRC — both `if` bodies in the source are empty (`FIXME`),
    so the comparison results are dropped — then enumerate
    `number_partition_entries * size_single_partition_entry / SECTOR_SIZE`
    sectors of entries from `starting_lba_of_partition_entries`.  The
    entry-array read (`read_disk_image`, modelled from the spec: the bytes
    of sectors `start..start + number_of_sectors`) only contributes its
    bounds check, since its CRC comparison is dropped. -/
def parseGpt (img : List Nat) : Option (List GptPartitionTableEntry) :=
  match parseGptHeader img with
  | none => none
  | some header =>
    match isValidHeaderCrc32 img header.headerSizeVal header.crc32 with
    | none => none
    | some _ =>
      if (header.startingLbaVal +
          header.numberPartitionEntriesVal * header.sizeSinglePartitionEntryVal
            % 2 ^ 32 / 512) * 512 ≤ img.length then
        gptEntriesLoop img header.startingLbaVal 0
          (header.numberPartitionEntriesVal * header.sizeSinglePartitionEntryVal
            % 2 ^ 32 / 512)
      else none

end MbrParser

namespace MbrParser

/-- Two images of equal length that agree byte-for-byte on a window have
    equal slices there. -/
theorem bytesAt_congr (img1 img2 : List Nat) (p n : Nat)
    (hlen : img1.length = img2.length)
    (hag : ∀ q, p ≤ q → q < p + n → img1.getD q 0 = img2.getD q 0) :
    bytesAt img1 p n = bytesAt img2 p n := by
  apply List.ext_getElem?
  intro i
  show ((img1.drop p).take n)[i]? = ((img2.drop p).take n)[i]?
  rw [List.getElem?_take, List.getElem?_take, List.getElem?_drop, List.getElem?_drop]
  by_cases hi : i < n
  · rw [if_pos hi, if_pos hi]
    by_cases hq : p + i < img1.length
    · rw [List.getElem?_eq_getElem hq, List.getElem?_eq_getElem (hlen ▸ hq)]
      have h := hag (p + i) (by omega) (by omega)
      rw [List.getD_eq_getElem _ _ hq, List.getD_eq_getElem _ _ (hlen ▸ hq)] at h
      rw [h]
    · rw [List.getElem?_eq_none (by omega), List.getElem?_eq_none (by omega)]
  · rw [if_neg hi, if_neg hi]

/-- The slice written by `writeBytes` reads back as the written bytes. -/
theorem bytesAt_writeBytes_self (img : List Nat) (p : Nat) (bs : List Nat)
    (h : p + bs.length ≤ img.length) :
    bytesAt (writeBytes img p bs) p bs.length = bs := by
  have hlen : (writeBytes img p bs).length = img.length := writeBytes_length bs img p
  rw [← map_getD_range_eq_bytesAt _ p bs.length (by omega)]
  have hbs : (List.range bs.length).map (fun i => bs.getD i 0) = bs := by
    have := map_getD_range_eq_bytesAt bs 0 bs.length (by omega)
    simpa [bytesAt] using this
  conv_rhs => rw [← hbs]
  apply List.map_congr_left
  intro i hi
  simp only [List.mem_range] at hi
  exact writeBytes_getD_in bs img p i hi h

/-- The per-sector entry loop reads only bytes from its start offset
    onwards. -/
theorem readEntriesFrom_congr (img1 img2 : List Nat)
    (hlen : img1.length = img2.length)
    (hag : ∀ q, 604 ≤ q → img1.getD q 0 = img2.getD q 0) :
    ∀ (fuel p : Nat), 604 ≤ p →
      readEntriesFrom img1 p fuel = readEntriesFrom img2 p fuel := by
  intro fuel
  induction fuel with
  | zero => intro p _; rfl
  | succ fuel ih =>
    intro p hp
    have hentry : readGptEntry img1 p = readGptEntry img2 p := by
      unfold readGptEntry
      congr 1 <;>
        exact bytesAt_congr img1 img2 _ _ hlen
          (fun q hq1 hq2 => hag q (by omega))
    have hstep : ∀ imgA : List Nat, readEntriesFrom imgA p (fuel + 1) =
        if p + 128 ≤ imgA.length then
          if (readGptEntry imgA p).isEmpty then some []
          else
            match readEntriesFrom imgA (p + 128) fuel with
            | none => none
            | some es => some (readGptEntry imgA p :: es)
        else none := fun imgA => rfl
    rw [hstep img1, hstep img2, hentry, hlen, ih (p + 128) (by omega)]

/-- The sector loop of `parse_gpt` reads only bytes at or beyond sector 2
    when the entry array starts there. -/
theorem gptEntriesLoop_congr (img1 img2 : List Nat)
    (hlen : img1.length = img2.length)
    (hag : ∀ q, 604 ≤ q → img1.getD q 0 = img2.getD q 0)
    (startLba : Nat) (hstart : 2 ≤ startLba) :
    ∀ (n index : Nat),
      gptEntriesLoop img1 startLba index n = gptEntriesLoop img2 startLba index n := by
  intro n
  induction n with
  | zero => intro index; rfl
  | succ n ih =>
    intro index
    have hstep : ∀ imgA : List Nat, gptEntriesLoop imgA startLba index (n + 1) =
        match readEntriesFrom imgA ((startLba + index) * 512) (imgA.length / 128 + 1) with
        | none => none
        | some es =>
          match gptEntriesLoop imgA startLba (index + 1) n with
          | none => none
          | some rest => some (es ++ rest) := fun imgA => rfl
    rw [hstep img1, hstep img2,
      readEntriesFrom_congr img1 img2 hlen hag _ ((startLba + index) * 512)
        (by nlinarith), hlen, ih (index + 1)]

end MbrParser

namespace MbrParser

/-- C9 amended — the GPT decoder checks both CRC32s but records nothing on a
    mismatch (both mismatch branches are empty), and enumeration proceeds
    regardless: overwriting the stored header CRC (bytes 528..532) and
    entry-array CRC (bytes 600..604) with arbitrary 4-byte values leaves the
    entire result of `parse_gpt` unchanged whenever the entry array starts
    at LBA 2 or later. -/
theorem parseGpt_crc_independent (img : List Nat) (c1 c2 : List Nat) (hdr : GptHeader)
    (h1 : c1.length = 4) (h2 : c2.length = 4)
    (hhdr : parseGptHeader img = some hdr)
    (hstart : 2 ≤ hdr.startingLbaVal) :
    parseGpt (writeBytes (writeBytes img 528 c1) 600 c2) = parseGpt img := by
  have hb : 512 + 92 ≤ img.length := by
    by_contra hc
    unfold parseGptHeader at hhdr
    rw [if_neg hc] at hhdr
    exact Option.noConfusion hhdr
  have hlen2 : (writeBytes (writeBytes img 528 c1) 600 c2).length = img.length := by
    rw [writeBytes_length, writeBytes_length]
  have hag : ∀ q, q < 528 ∨ (532 ≤ q ∧ q < 600) ∨ 604 ≤ q →
      (writeBytes (writeBytes img 528 c1) 600 c2).getD q 0 = img.getD q 0 := by
    intro q hq
    rw [writeBytes_getD_out c2 _ 600 q (by rw [h2]; omega),
      writeBytes_getD_out c1 img 528 q (by rw [h1]; omega)]
  have hcrc1 : bytesAt (writeBytes (writeBytes img 528 c1) 600 c2) 528 4 = c1 := by
    have hinner : bytesAt (writeBytes img 528 c1) 528 4 = c1 := by
      rw [← h1]
      exact bytesAt_writeBytes_self img 528 c1 (by omega)
    have houter : bytesAt (writeBytes (writeBytes img 528 c1) 600 c2) 528 4 =
        bytesAt (writeBytes img 528 c1) 528 4 :=
      bytesAt_congr _ _ 528 4 (writeBytes_length c2 _ 600)
        (fun q hq1 hq2 => writeBytes_getD_out c2 _ 600 q (by rw [h2]; omega))
    rw [houter, hinner]
  have hcrc2 : bytesAt (writeBytes (writeBytes img 528 c1) 600 c2) 600 4 = c2 := by
    rw [← h2]
    exact bytesAt_writeBytes_self (writeBytes img 528 c1) 600 c2
      (by rw [writeBytes_length]; omega)
  have hfields : ∀ p n : Nat, p + n ≤ 528 ∨ (532 ≤ p ∧ p + n ≤ 600) →
      bytesAt (writeBytes (writeBytes img 528 c1) 600 c2) p n = bytesAt img p n := by
    intro p n hcase
    exact bytesAt_congr _ _ p n hlen2 (fun q hq1 hq2 => hag q (by omega))
  have hdrval : hdr =
      { efiPart := bytesAt img 512 8
        revision := bytesAt img 520 4
        headerSize := bytesAt img 524 4
        crc32 := bytesAt img 528 4
        reserved := bytesAt img 532 4
        currentLba := bytesAt img 536 8
        backupLba := bytesAt img 544 8
        firstUsableLba := bytesAt img 552 8
        lastUsableLba := bytesAt img 560 8
        diskGuid := bytesAt img 568 16
        startingLbaOfPartitionEntries := bytesAt img 584 8
        numberPartitionEntries := bytesAt img 592 4
        sizeSinglePartitionEntry := bytesAt img 596 4
        crc32PartitionEntries := bytesAt img 600 4 } := by
    unfold parseGptHeader at hhdr
    rw [if_pos hb] at hhdr
    exact (Option.some.inj hhdr).symm
  have hhdr2 : parseGptHeader (writeBytes (writeBytes img 528 c1) 600 c2) =
      some { hdr with crc32 := c1, crc32PartitionEntries := c2 } := by
    unfold parseGptHeader
    rw [if_pos (by omega : 512 + 92 ≤ (writeBytes (writeBytes img 528 c1) 600 c2).length)]
    rw [hfields 512 8 (by omega), hfields 520 4 (by omega), hfields 524 4 (by omega),
      hcrc1, hfields 532 4 (by omega), hfields 536 8 (by omega), hfields 544 8 (by omega),
      hfields 552 8 (by omega), hfields 560 8 (by omega), hfields 568 16 (by omega),
      hfields 584 8 (by omega), hfields 592 4 (by omega), hfields 596 4 (by omega), hcrc2]
    rw [hdrval]
  have pstep : ∀ (imgA : List Nat) (hdrA : GptHeader), parseGptHeader imgA = some hdrA →
      parseGpt imgA =
        match isValidHeaderCrc32 imgA hdrA.headerSizeVal hdrA.crc32 with
        | none => none
        | some _ =>
          if (hdrA.startingLbaVal +
              hdrA.numberPartitionEntriesVal * hdrA.sizeSinglePartitionEntryVal
                % 2 ^ 32 / 512) * 512 ≤ imgA.length then
            gptEntriesLoop imgA hdrA.startingLbaVal 0
              (hdrA.numberPartitionEntriesVal * hdrA.sizeSinglePartitionEntryVal
                % 2 ^ 32 / 512)
          else none := by
    intro imgA hdrA hA
    unfold parseGpt
    simp only [hA]
  rw [pstep img hdr hhdr, pstep _ _ hhdr2]
  have hacc1 : ({ hdr with crc32 := c1, crc32PartitionEntries := c2 } : GptHeader).headerSizeVal =
      hdr.headerSizeVal := rfl
  have hacc2 : ({ hdr with crc32 := c1, crc32PartitionEntries := c2 } : GptHeader).startingLbaVal =
      hdr.startingLbaVal := rfl
  have hacc3 :
      ({ hdr with crc32 := c1, crc32PartitionEntries := c2 } : GptHeader).numberPartitionEntriesVal =
        hdr.numberPartitionEntriesVal := rfl
  have hacc4 :
      ({ hdr with crc32 := c1, crc32PartitionEntries := c2 } : GptHeader).sizeSinglePartitionEntryVal =
        hdr.sizeSinglePartitionEntryVal := rfl
  rw [hacc1, hacc2, hacc3, hacc4, hlen2]
  by_cases hg : 512 + hdr.headerSizeVal ≤ img.length ∧ 20 ≤ hdr.headerSizeVal
  · have e1 : ∃ b1, isValidHeaderCrc32 img hdr.headerSizeVal hdr.crc32 = some b1 :=
      ⟨_, by unfold isValidHeaderCrc32; rw [if_pos hg]⟩
    have e2 : ∃ b2, isValidHeaderCrc32 (writeBytes (writeBytes img 528 c1) 600 c2)
        hdr.headerSizeVal c1 = some b2 :=
      ⟨_, by unfold isValidHeaderCrc32; rw [if_pos (by omega : 512 + hdr.headerSizeVal ≤
        (writeBytes (writeBytes img 528 c1) 600 c2).length ∧ 20 ≤ hdr.headerSizeVal)]⟩
    obtain ⟨b1, hb1⟩ := e1
    obtain ⟨b2, hb2⟩ := e2
    rw [hb1, hb2]
    by_cases hbound : (hdr.startingLbaVal +
        hdr.numberPartitionEntriesVal * hdr.sizeSinglePartitionEntryVal
          % 2 ^ 32 / 512) * 512 ≤ img.length
    · rw [if_pos hbound, if_pos hbound]
      exact gptEntriesLoop_congr _ img hlen2 (fun q hq => hag q (by omega))
        hdr.startingLbaVal hstart _ 0
    · rw [if_neg hbound, if_neg hbound]
  · have e1 : isValidHeaderCrc32 img hdr.headerSizeVal hdr.crc32 = none := by
      unfold isValidHeaderCrc32
      rw [if_neg hg]
    have e2 : isValidHeaderCrc32 (writeBytes (writeBytes img 528 c1) 600 c2)
        hdr.headerSizeVal c1 = none := by
      unfold isValidHeaderCrc32
      rw [if_neg (by omega)]
    rw [e1, e2]

end MbrParser

namespace MbrParser

/-- A 92-byte GPT header with signature EFI PART, header size 92, entry
    array of 4 entries of 128 bytes at LBA 2, and the given 4-byte
    header-CRC field. -/
def c9header (crcField : List Nat) : List Nat :=
  [0x45, 0x46, 0x49, 0x20, 0x50, 0x41, 0x52, 0x54] ++ [0, 0, 1, 0] ++ [92, 0, 0, 0] ++
  crcField ++ [0, 0, 0, 0] ++ [1, 0, 0, 0, 0, 0, 0, 0] ++ List.replicate 8 0 ++
  [2, 0, 0, 0, 0, 0, 0, 0] ++ [2, 0, 0, 0, 0, 0, 0, 0] ++ List.replicate 16 0 ++
  [2, 0, 0, 0, 0, 0, 0, 0] ++ [4, 0, 0, 0] ++ [128, 0, 0, 0] ++ [0, 0, 0, 0]

/-- A three-sector GPT image: protective sector 0, the header above at
    LBA 1, and an all-zero entry sector at LBA 2. -/
def c9img (crcField : List Nat) : List Nat :=
  List.replicate 512 0 ++ c9header crcField ++ List.replicate 420 0 ++
    List.replicate 512 0

set_option maxRecDepth 100000

/-- C9 counterexample — the images `c9img [1,0,0,0]` and `c9img [2,0,0,0]`
    differ only in the stored header CRC, so the CRC check cannot accept
    both; yet `parse_gpt` returns the identical entry list on both: on
    whichever of the two mismatches, the decoder records and reports
    nothing (its mismatch branch is empty), which is observable as the
    outputs being indistinguishable. -/
theorem gpt_crc_counterexample :
    (¬ (isValidHeaderCrc32 (c9img [1, 0, 0, 0]) 92 [1, 0, 0, 0] = some true ∧
        isValidHeaderCrc32 (c9img [2, 0, 0, 0]) 92 [2, 0, 0, 0] = some true)) ∧
    parseGpt (c9img [1, 0, 0, 0]) = parseGpt (c9img [2, 0, 0, 0]) ∧
    parseGpt (c9img [1, 0, 0, 0]) = some [] := by
  refine ⟨?_, by decide, by decide⟩
  rintro ⟨h1, h2⟩
  unfold isValidHeaderCrc32 at h1 h2
  rw [if_pos (by decide)] at h1
  rw [if_pos (by decide)] at h2
  have hz :
      (bytesAt (c9img [2, 0, 0, 0]) 512 92).take 16 ++ List.replicate 4 0 ++
        (bytesAt (c9img [2, 0, 0, 0]) 512 92).drop 20 =
      (bytesAt (c9img [1, 0, 0, 0]) 512 92).take 16 ++ List.replicate 4 0 ++
        (bytesAt (c9img [1, 0, 0, 0]) 512 92).drop 20 := by decide
  rw [hz] at h2
  have e1 := Option.some.inj h1
  rw [beq_iff_eq] at e1
  have e2 := Option.some.inj h2
  rw [beq_iff_eq] at e2
  rw [e1] at e2
  exact absurd e2 (by decide)

/-- C9 amended witness — corrupting both stored CRCs of the concrete image
    leaves the parse result unchanged. -/
theorem parseGpt_crc_independent_witness :
    parseGpt (writeBytes (writeBytes (c9img [1, 0, 0, 0]) 528
        [0xDE, 0xAD, 0xBE, 0xEF]) 600 [1, 2, 3, 4]) =
      parseGpt (c9img [1, 0, 0, 0]) :=
  parseGpt_crc_independent (c9img [1, 0, 0, 0]) [0xDE, 0xAD, 0xBE, 0xEF]
    [1, 2, 3, 4] _ (by decide) (by decide) rfl (by decide)

end MbrParser
